import Mathlib

/-!
Verification development for the ASTAP plate-solver job-queue service
(`services/astap-solver/app.py`).

The Python source is shallowly embedded:
* pure helpers (`allowed_file`, `parse_wcs_file`, result construction)
  become Lean functions over `List Char` / `String` / `Rat`
  (Python floats are modelled as exact rationals, and the stdlib
  `float(...)` / `int(...)` constructors as decimal parsers over them);
* the Redis store is a record of a key-to-record map, a FIFO list, an
  integer counter and a set, every Redis command of the source being one
  atomic update of that record;
* the worker loop, the per-job execution unit (`process_job`), the HTTP
  handlers (`solve`, `cancel_job`) and the record TTL expiry are the
  actors of a small-step transition system over the whole service state,
  with the worker loop broken at its read / pop / increment points and the
  execution unit broken at its read / work / finalize points, matching the
  thread interleavings the source allows.
-/

/-! ### Python string primitives -/

/-- Whitespace characters removed by Python `str.strip()` (ASCII subset). -/
def pyWs (c : Char) : Bool :=
  c == ' ' || c == '\t' || c == '\n' || c == '\r' || c == '\x0b' || c == '\x0c'

/-- `str.strip()` on a character list: drop whitespace at both ends. -/
def pstripList (cs : List Char) : List Char :=
  ((cs.dropWhile pyWs).reverse.dropWhile pyWs).reverse

/-- `str.strip()`. -/
def pstrip (s : String) : String := String.mk (pstripList s.data)

/-- The single-quote character, written numerically. -/
def squote : Char := Char.ofNat 39

/-- Optional leading sign accepted by `float(...)` / `int(...)`:
returns (isNegative, rest). -/
def pySign : List Char → Bool × List Char
  | '+' :: r => (false, r)
  | '-' :: r => (true, r)
  | cs => (false, cs)

/-- Value of a digit string, most significant first. -/
def digitsVal (ds : List Char) : Nat :=
  ds.foldl (fun a c => a * 10 + (c.toNat - 48)) 0

/-- Core of Python `float(...)` on an already-stripped character list:
optional sign, decimal digits with an optional point, optional exponent.
(The stdlib constructor also accepts `inf` / `nan` spellings and
underscore digit separators; those are outside the model, and outside
every value the solver sidecar or the HTTP form can meaningfully carry.)
Returns `none` exactly when Python raises `ValueError`. -/
def pyFloatCore (cs : List Char) : Option ℚ :=
  let s1 := pySign cs
  let ip := s1.2.takeWhile Char.isDigit
  let r1 := s1.2.dropWhile Char.isDigit
  let fr : List Char × List Char :=
    match r1 with
    | '.' :: r => (r.takeWhile Char.isDigit, r.dropWhile Char.isDigit)
    | _ => ([], r1)
  if ip = [] ∧ fr.1 = [] then none
  else
    let mant : ℚ := (digitsVal ip : ℚ) + (digitsVal fr.1 : ℚ) / (10 : ℚ) ^ fr.1.length
    match fr.2 with
    | [] => some (if s1.1 then -mant else mant)
    | e :: r3 =>
      if e = 'e' ∨ e = 'E' then
        let s2 := pySign r3
        let ed := s2.2.takeWhile Char.isDigit
        let r4 := s2.2.dropWhile Char.isDigit
        if ed = [] ∨ r4 ≠ [] then none
        else
          let ev : ℚ := (10 : ℚ) ^ digitsVal ed
          let m2 := if s2.1 then mant / ev else mant * ev
          some (if s1.1 then -m2 else m2)
      else none

/-- Python `float(s)`: strips whitespace, then parses a decimal literal. -/
def pyFloat (s : String) : Option ℚ := pyFloatCore (pstripList s.data)

/-- Core of Python `int(...)` on an already-stripped character list:
optional sign and decimal digits only. -/
def pyIntCore (cs : List Char) : Option ℤ :=
  let s1 := pySign cs
  let ds := s1.2.takeWhile Char.isDigit
  let r := s1.2.dropWhile Char.isDigit
  if ds = [] ∨ r ≠ [] then none
  else some (if s1.1 then -(digitsVal ds : ℤ) else (digitsVal ds : ℤ))

/-- Python `int(s)` for decimal strings. -/
def pyInt (s : String) : Option ℤ := pyIntCore (pstripList s.data)

/-- `s.rsplit(sep, 1)` helper: split a character list at its LAST `'.'`;
returns (before, some after) or (whole, none) when no dot occurs. -/
def lastDotSplit : List Char → List Char × Option (List Char)
  | [] => ([], none)
  | c :: rest =>
    let p := lastDotSplit rest
    match p.2 with
    | some _ => (c :: p.1, p.2)
    | none => if c = '.' then ([], some rest) else (c :: p.1, none)

/-- `path.rsplit(".", 1)[0]`: everything before the last dot
(the whole string when there is no dot). -/
def rsplitBase (s : String) : String :=
  String.mk (lastDotSplit s.data).1

/-- `filename.rsplit(".", 1)[1]` when a dot exists: the extension. -/
def rsplitExt (s : String) : Option String :=
  ((lastDotSplit s.data).2).map String.mk

/-! ### Configuration constants of `app.py` -/

/-- `ALLOWED_EXTENSIONS` from the source. -/
def ALLOWED_EXTENSIONS : List String :=
  ["png", "jpg", "jpeg", "fit", "fits", "tif", "tiff"]

/-- `TEMP_DIR` default from the source. -/
def TEMP_DIR : String := "/tmp/astap-jobs"

/-- `str.lower()` for the ASCII extensions compared here. -/
def pyLower (s : String) : String := String.mk (s.data.map Char.toLower)

/-- `allowed_file` from the source: the name contains a dot and its
lowercased last extension is in the allow-list. -/
def allowed_file (filename : String) : Bool :=
  filename.data.contains '.' &&
    (match rsplitExt filename with
     | some e => ALLOWED_EXTENSIONS.contains (pyLower e)
     | none => false)

/-! ### The WCS sidecar parser (`parse_wcs_file`) -/

/-- A parsed WCS value: the float parse succeeded, or the raw string kept. -/
inductive WVal where
  | num (q : ℚ)
  | str (s : String)
deriving DecidableEq

/-- The parsed table, Python-dict-like: later bindings shadow earlier ones
(entries are prepended and lookup takes the first hit). -/
abbrev WDict := List (String × WVal)

/-- Dict write `result[key] = v` (later assignment wins on lookup). -/
def dictSet (d : WDict) (k : String) (v : WVal) : WDict := (k, v) :: d

/-- Dict lookup `d.get(key)`. -/
def dictGet (d : WDict) (k : String) : Option WVal :=
  (d.find? (fun e => e.1 = k)).map (fun e => e.2)

/-- Dict membership `key in d`. -/
def dictHas (d : WDict) (k : String) : Bool := (dictGet d k).isSome

/-- Split a character list at its FIRST `'='`
(`line.split("=", 1)` when an equals sign occurs). -/
def splitEq : List Char → Option (List Char × List Char)
  | [] => none
  | c :: cs =>
    if c = '=' then some ([], cs)
    else (splitEq cs).map (fun p => (c :: p.1, p.2))

/-- Strip surrounding single quotes, then strip whitespace, exactly as
`value[1:-1].strip()` guarded by `startswith`/`endswith` on the quote. -/
def stripQuotes (v : List Char) : List Char :=
  if v.head? = some squote ∧ v.getLast? = some squote then
    pstripList ((v.drop 1).dropLast)
  else v

/-- Processing of one line of the WCS file (the loop body of
`parse_wcs_file`): strip the line; if it contains an equals sign, split at
the first one, strip the key, drop a trailing `/`-comment from the value,
strip, remove surrounding single quotes, try the float parse, and store. -/
def wcsStep (d : WDict) (line : String) : WDict :=
  let l := pstripList line.data
  match splitEq l with
  | none => d
  | some kv =>
    let key := String.mk (pstripList kv.1)
    let v1 := pstripList (kv.2.takeWhile (fun c => c ≠ '/'))
    let v2 := stripQuotes v1
    let vs := String.mk v2
    match pyFloat vs with
    | some q => dictSet d key (WVal.num q)
    | none => dictSet d key (WVal.str vs)

/-- `parse_wcs_file`: `none` models a missing file (the function returns an
empty dict); otherwise the file is a list of lines folded through
`wcsStep`. -/
def parse_wcs_file (content : Option (List String)) : WDict :=
  match content with
  | none => []
  | some lines => lines.foldl wcsStep []

/-! ### Python values appearing in the solver result

The success branch of `run_astap_solver` computes
`abs(wcs.get(...)) * ...` on dict values.  A parsed value is a float or a
string; the literal defaults `0` and `3600` are ints.  `abs` and `*` are
modelled with Python semantics: `abs` of a string raises `TypeError`,
string-times-int is sequence repetition, string-times-float raises.  A
raised `TypeError` is caught by the `except Exception` clause of the
source and turned into a failure result. -/

inductive PyVal where
  | pnum (q : ℚ)
  | pint (n : ℤ)
  | pstr (s : String)
deriving DecidableEq

/-- Python error text for `abs` on a string (`TypeError`). -/
def absErrMsg : String := "bad operand type for abs"

/-- Python error text for sequence-times-float (`TypeError`). -/
def mulSeqFloatMsg : String := "cannot multiply sequence by non-int of type float"

/-- Python error text for sequence-times-sequence (`TypeError`). -/
def mulSeqStrMsg : String := "cannot multiply sequence by non-int of type str"

/-- String repetition `s * n` (empty for non-positive `n`). -/
def strRepeat (s : String) (n : ℤ) : String :=
  String.join (List.replicate n.toNat s)

/-- Python `abs`, raising on strings. -/
def absPy : PyVal → Except String PyVal
  | PyVal.pnum q => Except.ok (PyVal.pnum |q|)
  | PyVal.pint n => Except.ok (PyVal.pint |n|)
  | PyVal.pstr _ => Except.error absErrMsg

/-- Python `*` on the value shapes reachable in the source. -/
def mulPy : PyVal → PyVal → Except String PyVal
  | PyVal.pnum a, PyVal.pnum b => Except.ok (PyVal.pnum (a * b))
  | PyVal.pnum a, PyVal.pint n => Except.ok (PyVal.pnum (a * (n : ℚ)))
  | PyVal.pint n, PyVal.pnum b => Except.ok (PyVal.pnum ((n : ℚ) * b))
  | PyVal.pint m, PyVal.pint n => Except.ok (PyVal.pint (m * n))
  | PyVal.pstr s, PyVal.pint n => Except.ok (PyVal.pstr (strRepeat s n))
  | PyVal.pint n, PyVal.pstr s => Except.ok (PyVal.pstr (strRepeat s n))
  | PyVal.pstr _, PyVal.pnum _ => Except.error mulSeqFloatMsg
  | PyVal.pnum _, PyVal.pstr _ => Except.error mulSeqFloatMsg
  | PyVal.pstr _, PyVal.pstr _ => Except.error mulSeqStrMsg

/-- Injection of parsed WCS values into Python values. -/
def toPy : WVal → PyVal
  | WVal.num q => PyVal.pnum q
  | WVal.str s => PyVal.pstr s

/-- `wcs_data.get(key)` as a Python value. -/
def wget (d : WDict) (k : String) : Option PyVal := (dictGet d k).map toPy

/-- `wcs_data.get(key, default)`. -/
def wgetD (d : WDict) (k : String) (dflt : PyVal) : PyVal := (wget d k).getD dflt

/-! ### The solver result (`run_astap_solver` return dict) -/

/-- The result dict of `run_astap_solver`, with one optional field per key
that only some branches set. -/
structure SolveResult where
  success : Bool
  solved : Bool
  ra : Option PyVal
  dec : Option PyVal
  orientation : Option PyVal
  pixscale : Option PyVal
  fieldw : Option PyVal
  fieldh : Option PyVal
  error : Option String
  wcs : WDict
  stdout : Option String
  stderr : Option String
deriving DecidableEq

/-- A bare failure dict `{success: False, solved: False, error: msg}`
(the shape returned by the `except` branches of `run_astap_solver` and
recorded by the `except` branch of `process_job`). -/
def failedResult (msg : String) : SolveResult :=
  { success := false, solved := false, ra := none, dec := none,
    orientation := none, pixscale := none, fieldw := none, fieldh := none,
    error := some msg, wcs := [], stdout := none, stderr := none }

/-- The timeout message of the source. -/
def timeoutMsg : String := "Solver timeout (exceeded 5 minutes)"

/-- The no-solution message of the source. -/
def noSolutionMsg : String := "No solution found"

/-- The derived fields of the success dict, evaluated in source order:
`pixscale`, `fieldw`, `fieldh` (each may raise `TypeError`). -/
def derivedFields (d : WDict) : Except String (PyVal × PyVal × PyVal) := do
  let a1 ← absPy (wgetD d "CDELT1" (wgetD d "CD1_1" (PyVal.pint 0)))
  let ps ← mulPy a1 (PyVal.pint 3600)
  let a2 ← absPy (wgetD d "CDELT1" (PyVal.pint 0))
  let fw ← mulPy (wgetD d "NAXIS1" (PyVal.pint 0)) a2
  let a3 ← absPy (wgetD d "CDELT2" (PyVal.pint 0))
  let fh ← mulPy (wgetD d "NAXIS2" (PyVal.pint 0)) a3
  pure (ps, fw, fh)

/-- Construction of the result dict from the parsed sidecar table and the
captured streams (lines 146-170 of the source, together with the
`except Exception` clause that catches a `TypeError` raised while the
success dict is being built). -/
def mkSolveResult (d : WDict) (out err : String) : SolveResult :=
  if dictHas d "CRVAL1" && dictHas d "CRVAL2" then
    match derivedFields d with
    | Except.ok v =>
      { success := true, solved := true,
        ra := wget d "CRVAL1", dec := wget d "CRVAL2",
        orientation := some (wgetD d "CROTA2" (wgetD d "CROTA1" (PyVal.pint 0))),
        pixscale := some v.1, fieldw := some v.2.1, fieldh := some v.2.2,
        error := none, wcs := d, stdout := some out, stderr := some err }
    | Except.error e => failedResult e
  else
    { success := false, solved := false, ra := none, dec := none,
      orientation := none, pixscale := none, fieldw := none, fieldh := none,
      error := some noSolutionMsg, wcs := [], stdout := some out, stderr := some err }

/-! ### Filesystem model -/

/-- The scratch filesystem: a list of (path, lines) with unique paths. -/
abbrev FS := List (String × List String)

/-- `open(p).readlines()` if the path exists. -/
def fsRead (fs : FS) (p : String) : Option (List String) :=
  (fs.find? (fun e => e.1 = p)).map (fun e => e.2)

/-- `os.path.exists(p)`. -/
def fsHas (fs : FS) (p : String) : Bool := (fsRead fs p).isSome

/-- `os.remove(p)` (no-op when absent, as the source wraps removal in
`try/except`). -/
def fsRemove (fs : FS) (p : String) : FS := fs.filter (fun e => e.1 ≠ p)

/-- Write (or overwrite) one file. -/
def fsWrite (fs : FS) (p : String) (c : List String) : FS :=
  fsRemove fs p ++ [(p, c)]

/-- Write a batch of files (what the external tool leaves on disk). -/
def fsWriteAll (fs : FS) (ws : List (String × List String)) : FS :=
  ws.foldl (fun a w => fsWrite a w.1 w.2) fs

/-- Sidecar cleanup (the `finally` block of `run_astap_solver`): remove
`base + ext` for the three sidecar extensions. -/
def sidecarCleanup (fs : FS) (base : String) : FS :=
  fsRemove (fsRemove (fsRemove fs (base ++ ".wcs")) (base ++ ".ini")) (base ++ ".log")

/-! ### `run_astap_solver` -/

/-- How the `subprocess.run` call ends: normal exit with captured streams,
`subprocess.TimeoutExpired`, or any other exception raised by the launch. -/
inductive SubprocOutcome where
  | finished (out err : String)
  | timeout
  | raised (msg : String)
deriving DecidableEq

/-- `run_astap_solver` from the subprocess call onward, on a filesystem
that already holds whatever the tool wrote.  The command-line assembly
feeds the black-box tool only and does not influence the returned value,
so it is not part of the model.  Returns the result dict and the
filesystem after the guaranteed sidecar cleanup of the `finally` block. -/
def run_astap_solver (fs : FS) (image_path : String) (outcome : SubprocOutcome) :
    SolveResult × FS :=
  let base := rsplitBase image_path
  let res :=
    match outcome with
    | SubprocOutcome.finished out err =>
      let wcs_data :=
        match fsRead fs (base ++ ".wcs") with
        | some lines => parse_wcs_file (some lines)
        | none => []
      mkSolveResult wcs_data out err
    | SubprocOutcome.timeout => failedResult timeoutMsg
    | SubprocOutcome.raised m => failedResult m
  (res, sidecarCleanup fs base)

/-! ### Job records and the store -/

/-- Job lifecycle status strings of the source. -/
inductive Status where
  | queued
  | processing
  | completed
  | failed
  | cancelled
deriving DecidableEq

/-- The options snapshot stored at submission (`options` JSON field). -/
structure SolveOptions where
  fov : Option ℚ
  ra : Option ℚ
  dec : Option ℚ
  downsample : Option ℤ
deriving DecidableEq

/-- A Redis job hash `job:{id}`.  Timestamps are modelled as set/unset
flags; `expirySet` records that `r.expire(...)` was called on the key. -/
structure JobRecord where
  status : Status
  filename : String
  imagePath : String
  options : SolveOptions
  startedAt : Bool
  completedAt : Bool
  result : Option SolveResult
  expirySet : Bool
deriving DecidableEq

/-- A record created implicitly by `HSET` on a missing key (only the
fields of that `HSET` are populated). -/
def emptyRecord : JobRecord :=
  { status := Status.queued, filename := "", imagePath := "",
    options := { fov := none, ra := none, dec := none, downsample := none },
    startedAt := false, completedAt := false, result := none, expirySet := false }

/-- The Redis state used by the service: job hashes, the FIFO list
`job_queue`, the integer `active_jobs`, and the set `processing_jobs`. -/
structure Store where
  records : String → Option JobRecord
  queue : List String
  activeJobs : Int
  procSet : List String

/-- Point update of the record map. -/
def updRecords (st : Store) (id : String) (v : Option JobRecord) : Store :=
  { st with records := fun j => if j = id then v else st.records j }

/-- `HSET job:{id} status processing, started_at ...` (creates the hash
when the key is missing, as Redis does). -/
def markProcessing (st : Store) (id : String) : Store :=
  let r := (st.records id).getD emptyRecord
  updRecords st id (some { r with status := Status.processing, startedAt := true })

/-- Terminal write of the success path of `process_job`:
status `completed`, `completed_at`, result payload, in one `HSET`. -/
def writeCompleted (st : Store) (id : String) (res : SolveResult) : Store :=
  let r := (st.records id).getD emptyRecord
  let r2 := { r with status := Status.completed, completedAt := true, result := some res }
  updRecords st id (some r2)

/-- Terminal write of the `except` branch of `process_job`:
status `failed`, `completed_at`, failure payload, in one `HSET`. -/
def writeFailed (st : Store) (id : String) (msg : String) : Store :=
  let r := (st.records id).getD emptyRecord
  let r2 := { r with status := Status.failed, completedAt := true, result := some (failedResult msg) }
  updRecords st id (some r2)

/-- `SADD processing_jobs id`. -/
def sadd (l : List String) (x : String) : List String :=
  if x ∈ l then l else l ++ [x]

/-- The `finally` block of `process_job`: `DECR active_jobs` and
`SREM processing_jobs id`. -/
def doFinally (st : Store) (id : String) : Store :=
  { st with activeJobs := st.activeJobs - 1,
            procSet := st.procSet.filter (fun j => j ≠ id) }

/-- `LREM job_queue 1 id`: remove the first occurrence, tolerant of the
id being absent. -/
def lrem1 (x : String) : List String → List String
  | [] => []
  | y :: ys => if y = x then ys else y :: lrem1 x ys

/-! ### `process_job` -/

/-- Injection point of an unexpected exception inside the `try` block of
`process_job` (the `except Exception` clause of the source catches any
such exception, e.g. a store read/write error or a malformed options
string).  `beforeSolver`: raised after the processing-status write, before
the tool runs; `afterSolver`: raised after the tool returned, before the
image cleanup. -/
inductive ExnPoint where
  | noExn
  | beforeSolver (msg : String)
  | afterSolver (msg : String)
deriving DecidableEq

/-- The part of `process_job` between the record read and the `finally`
block: run the tool (which first deposits `writes` on disk), write the
terminal record, and on the normal path delete the input artifact. -/
def uWorkEffect (st : Store) (fs : FS) (id imagePath : String)
    (writes : List (String × List String)) (outcome : SubprocOutcome)
    (exn : ExnPoint) : Store × FS :=
  match exn with
  | ExnPoint.beforeSolver m => (writeFailed st id m, fs)
  | ExnPoint.afterSolver m =>
    let rr := run_astap_solver (fsWriteAll fs writes) imagePath outcome
    (writeFailed st id m, rr.2)
  | ExnPoint.noExn =>
    let rr := run_astap_solver (fsWriteAll fs writes) imagePath outcome
    let st2 := writeCompleted st id rr.1
    let fs3 :=
      if imagePath ≠ "" ∧ fsHas rr.2 imagePath then fsRemove rr.2 imagePath
      else rr.2
    (st2, fs3)

/-- `process_job(job_id)`: read the job hash (early return when gone),
mark it processing, run the solver and finalize, and in every case run the
`finally` block. -/
def process_job (st : Store) (fs : FS) (id : String)
    (writes : List (String × List String)) (outcome : SubprocOutcome)
    (exn : ExnPoint) : Store × FS :=
  match st.records id with
  | none => (doFinally st id, fs)
  | some jr =>
    let st1 := markProcessing st id
    let r := uWorkEffect st1 fs id jr.imagePath writes outcome exn
    (doFinally r.1 id, r.2)

/-! ### The `solve` endpoint (submission) -/

/-- An uploaded artifact: `request.files["file"]`. -/
structure UploadFile where
  filename : String
  content : List String
deriving DecidableEq

/-- The multipart form of `POST /solve`: the artifact and the four raw
optional string fields. -/
structure SolveForm where
  file : Option UploadFile
  fov : Option String
  ra : Option String
  dec : Option String
  downsample : Option String
deriving DecidableEq

/-- The option-collection block of `solve` (lines 374-393 of the source).
Each field is guarded by `try/except ValueError: pass`; `ra` and `dec`
share ONE `try` block in which `options["ra"]` is assigned before
`options["dec"]` is computed, so a failing `dec` parse leaves a lone `ra`
behind. -/
def parseOptions (form : SolveForm) : SolveOptions :=
  let fov :=
    match form.fov with
    | some s => pyFloat s
    | none => none
  let rd : Option ℚ × Option ℚ :=
    match form.ra, form.dec with
    | some s1, some s2 =>
      (match pyFloat s1 with
       | none => (none, none)
       | some q1 => (some q1, pyFloat s2))
    | _, _ => (none, none)
  let ds :=
    match form.downsample with
    | some s => pyInt s
    | none => none
  { fov := fov, ra := rd.1, dec := rd.2, downsample := ds }

/-- `os.path.join(TEMP_DIR, f"{job_id}_{filename}")`. -/
def tempPath (id filename : String) : String :=
  TEMP_DIR ++ "/" ++ id ++ "_" ++ filename

/-- Response of `POST /solve`: a 400 with an error message, or the 200
payload carrying the job id and the queue length at insertion. -/
inductive SolveResp where
  | badRequest (msg : String)
  | accepted (jobId : String) (queuePos : Nat)
deriving DecidableEq

/-- Is the entire submission valid (complements the three 400 branches)? -/
def validForm (form : SolveForm) : Bool :=
  match form.file with
  | none => false
  | some f => (f.filename != "") && allowed_file f.filename

/-! ### The whole-service state and the `solve` / `cancel_job` handlers

The handlers below act on the whole-service state.  `used` is a ghost
history of every job id ever returned by `uuid.uuid4()`, modelling the
uniqueness of generated ids; no source operation reads it. -/

/-- Program counter of the single worker loop, broken exactly at the
points the source separates by store round-trips: after the counter read,
after a successful `BLPOP`, and after the `INCR`. -/
inductive LoopPC where
  | idle
  | haveCtr (c : Int)
  | havePopped (c : Int) (id : String)
  | didIncr (id : String)
deriving DecidableEq

/-- Phase of one spawned execution unit: before the record read, between
the processing-status write and the terminal write (holding the snapshot
of the image path), and before the `finally` block. -/
inductive UPhase where
  | pending
  | running (imagePath : String)
  | finishing
deriving DecidableEq

/-- The whole service: the store, the scratch filesystem, the worker-loop
program counter, the live execution units, and the ghost id history. -/
structure Sys where
  store : Store
  fs : FS
  loop : LoopPC
  units : List (String × UPhase)
  used : List String

/-- Fresh service state: empty store,`active_jobs` unset (read as 0),
the loop at the top of its body. -/
def Sys.init : Sys :=
  { store := { records := fun _ => none, queue := [], activeJobs := 0, procSet := [] },
    fs := [], loop := LoopPC.idle, units := [], used := [] }

/-- The `POST /solve` handler body on the whole-service state, `id` being
the `uuid.uuid4()` value generated in it.  (`secure_filename` is modelled
as the identity; its sanitization changes no property stated here.)
On a valid submission: save the artifact at the job-unique path, create
the record with status `queued`, set the retention expiry, push the id on
the queue tail, and answer with the queue length after the push. -/
def solveApp (s : Sys) (form : SolveForm) (id : String) : Sys × SolveResp :=
  match form.file with
  | none => (s, SolveResp.badRequest "No file provided")
  | some f =>
    if f.filename = "" then (s, SolveResp.badRequest "No file selected")
    else if allowed_file f.filename = false then
      (s, SolveResp.badRequest "Invalid file type")
    else
      let options := parseOptions form
      let path := tempPath id f.filename
      let jr : JobRecord :=
        { status := Status.queued, filename := f.filename, imagePath := path,
          options := options, startedAt := false, completedAt := false,
          result := none, expirySet := true }
      let st1 := updRecords s.store id (some jr)
      let st2 := { st1 with queue := st1.queue ++ [id] }
      ({ s with store := st2, fs := fsWrite s.fs path f.content,
                used := s.used ++ [id] },
       SolveResp.accepted id st2.queue.length)

/-- Response of `DELETE /job/{id}`. -/
inductive CancelResp where
  | notFound
  | invalidState
  | ok
deriving DecidableEq

/-- The `DELETE /job/{id}` handler: 404 when the record is gone, 400 when
its status is not `queued`, otherwise `LREM` the id from the queue,
set status `cancelled`, and delete the input artifact. -/
def cancel_job (st : Store) (fs : FS) (id : String) : Store × FS × CancelResp :=
  match st.records id with
  | none => (st, fs, CancelResp.notFound)
  | some jr =>
    if jr.status ≠ Status.queued then (st, fs, CancelResp.invalidState)
    else
      let st1 := { st with queue := lrem1 id st.queue }
      let st2 := updRecords st1 id (some { jr with status := Status.cancelled })
      let fs1 :=
        if jr.imagePath ≠ "" ∧ fsHas fs jr.imagePath then fsRemove fs jr.imagePath
        else fs
      (st2, fs1, CancelResp.ok)

/-- The cancel handler on the whole-service state. -/
def cancelSys (s : Sys) (id : String) : Sys :=
  let r := cancel_job s.store s.fs id
  { s with store := r.1, fs := r.2.1 }

/-- Effect of one execution unit reading its record: early exit to the
`finally` block when the record is gone, otherwise the processing-status
write, keeping the image-path snapshot. -/
def applyURead (s : Sys) (id : String) (u1 u2 : List (String × UPhase)) : Sys :=
  match s.store.records id with
  | none => { s with units := u1 ++ (id, UPhase.finishing) :: u2 }
  | some jr =>
    { s with store := markProcessing s.store id,
             units := u1 ++ (id, UPhase.running jr.imagePath) :: u2 }

/-- Effect of one execution unit running the tool and writing the terminal
record (the body between the status writes). -/
def applyUWork (s : Sys) (id p : String) (u1 u2 : List (String × UPhase))
    (writes : List (String × List String)) (outcome : SubprocOutcome)
    (exn : ExnPoint) : Sys :=
  let r := uWorkEffect s.store s.fs id p writes outcome exn
  { s with store := r.1, fs := r.2, units := u1 ++ (id, UPhase.finishing) :: u2 }

/-- TTL expiry of one record (`r.expire(job_key, JOB_EXPIRY_SECONDS)` was
set at submission; Redis may delete the key at any later instant,
whatever the status). -/
def delRecord (s : Sys) (id : String) : Sys :=
  { s with store := updRecords s.store id none }

/-- One interleaved step of the service, record expiry excepted.
The worker loop follows lines 255-275 of the source: read the counter;
when at or above the ceiling, sleep; otherwise `BLPOP` (empty answer or
the queue head); on a pop, `INCR`, `SADD` and thread start.  Units step
through `applyURead` / `applyUWork` / the `finally` block.  `submit`
carries the freshness of the generated uuid; `cancelS` may target any id. -/
inductive StepCore (C : Int) : Sys → Sys → Prop where
  | readCtr (s : Sys) (h : s.loop = LoopPC.idle) :
      StepCore C s { s with loop := LoopPC.haveCtr s.store.activeJobs }
  | loopFull (s : Sys) (c : Int) (h : s.loop = LoopPC.haveCtr c) (hc : C ≤ c) :
      StepCore C s { s with loop := LoopPC.idle }
  | popMiss (s : Sys) (c : Int) (h : s.loop = LoopPC.haveCtr c) (hc : c < C)
      (hq : s.store.queue = []) :
      StepCore C s { s with loop := LoopPC.idle }
  | popOk (s : Sys) (c : Int) (id : String) (rest : List String)
      (h : s.loop = LoopPC.haveCtr c) (hc : c < C)
      (hq : s.store.queue = id :: rest) :
      StepCore C s { s with loop := LoopPC.havePopped c id,
                            store := { s.store with queue := rest } }
  | incrCtr (s : Sys) (c : Int) (id : String) (h : s.loop = LoopPC.havePopped c id) :
      StepCore C s { s with loop := LoopPC.didIncr id,
                            store := { s.store with activeJobs := s.store.activeJobs + 1 } }
  | spawn (s : Sys) (id : String) (h : s.loop = LoopPC.didIncr id) :
      StepCore C s { s with loop := LoopPC.idle,
                            store := { s.store with procSet := sadd s.store.procSet id },
                            units := s.units ++ [(id, UPhase.pending)] }
  | uRead (s : Sys) (id : String) (u1 u2 : List (String × UPhase))
      (h : s.units = u1 ++ (id, UPhase.pending) :: u2) :
      StepCore C s (applyURead s id u1 u2)
  | uWork (s : Sys) (id p : String) (u1 u2 : List (String × UPhase))
      (writes : List (String × List String)) (outcome : SubprocOutcome)
      (exn : ExnPoint) (h : s.units = u1 ++ (id, UPhase.running p) :: u2) :
      StepCore C s (applyUWork s id p u1 u2 writes outcome exn)
  | uFin (s : Sys) (id : String) (u1 u2 : List (String × UPhase))
      (h : s.units = u1 ++ (id, UPhase.finishing) :: u2) :
      StepCore C s { s with units := u1 ++ u2, store := doFinally s.store id }
  | submit (s : Sys) (form : SolveForm) (id : String) (hf : id ∉ s.used)
      (hv : validForm form = true) :
      StepCore C s (solveApp s form id).1
  | cancelS (s : Sys) (id : String) :
      StepCore C s (cancelSys s id)

/-- Record TTL expiry as its own step kind. -/
inductive ExpireStep : Sys → Sys → Prop where
  | mk (s : Sys) (id : String) (r : JobRecord)
      (h1 : s.store.records id = some r) (h2 : r.expirySet = true) :
      ExpireStep s (delRecord s id)

/-- Any step of the service. -/
def StepAll (C : Int) (s t : Sys) : Prop := StepCore C s t ∨ ExpireStep s t

/-- Reachability from the fresh state under all steps. -/
def Reach (C : Int) (s : Sys) : Prop :=
  Relation.ReflTransGen (StepAll C) Sys.init s

/-- Reachability when no record expiry fires. -/
def ReachNE (C : Int) (s : Sys) : Prop :=
  Relation.ReflTransGen (StepCore C) Sys.init s

/-! ### Helper lemmas -/

theorem mem_pstripList {c : Char} {cs : List Char} (h : c ∈ pstripList cs) : c ∈ cs := by
  unfold pstripList at h
  rw [List.mem_reverse] at h
  have h2 := (List.dropWhile_sublist (l := (cs.dropWhile pyWs).reverse) (p := pyWs)).mem h
  rw [List.mem_reverse] at h2
  exact (List.dropWhile_sublist (l := cs) (p := pyWs)).mem h2

theorem splitEq_eq_none {cs : List Char} (h : '=' ∉ cs) : splitEq cs = none := by
  induction cs with
  | nil => rfl
  | cons c cs ih =>
    have hc : ¬ c = '=' := fun hh => h (hh ▸ List.mem_cons_self c cs)
    have hm : '=' ∉ cs := fun hh => h (List.mem_cons_of_mem c hh)
    simp [splitEq, hc, ih hm]

theorem find?_filter_none {α : Type} (p q : α → Bool) (l : List α)
    (h : List.find? q l = none) : List.find? q (l.filter p) = none := by
  rw [List.find?_eq_none] at *
  intro e he
  exact h e (List.mem_filter.mp he).1

theorem find?_append_none {α : Type} (q : α → Bool) {l₁ : List α} (l₂ : List α)
    (h : List.find? q l₁ = none) : List.find? q (l₁ ++ l₂) = l₂.find? q := by
  induction l₁ with
  | nil => simp
  | cons x xs ih =>
    cases hq : q x with
    | true =>
      rw [List.find?_cons_of_pos _ hq] at h
      cases h
    | false =>
      have hq2 : ¬ q x = true := by simp [hq]
      rw [List.find?_cons_of_neg _ hq2] at h
      rw [List.cons_append, List.find?_cons_of_neg _ hq2]
      exact ih h

theorem find?_fsRemove (fs : FS) (p : String) :
    List.find? (fun e => decide (e.1 = p)) (fsRemove fs p) = none := by
  rw [List.find?_eq_none]
  intro e he
  have := (List.mem_filter.mp he).2
  simpa using this

theorem fsRead_remove (fs : FS) (p : String) : fsRead (fsRemove fs p) p = none := by
  unfold fsRead
  rw [find?_fsRemove]
  rfl

theorem fsRead_remove_none {fs : FS} {x : String} (p : String)
    (h : fsRead fs x = none) : fsRead (fsRemove fs p) x = none := by
  unfold fsRead fsRemove at *
  cases hf : List.find? (fun e => decide (e.1 = x)) fs with
  | none => rw [find?_filter_none _ _ _ hf]; rfl
  | some e => rw [hf] at h; simp at h

theorem fsRead_write (fs : FS) (p : String) (c : List String) :
    fsRead (fsWrite fs p c) p = some c := by
  unfold fsRead fsWrite
  rw [find?_append_none _ _ (find?_fsRemove fs p)]
  simp [List.find?]

theorem lrem1_not_mem {x : String} {l : List String} (h : x ∉ l) : lrem1 x l = l := by
  induction l with
  | nil => rfl
  | cons y ys ih =>
    have hy : ¬ y = x := fun hh => h (hh ▸ List.mem_cons_self y ys)
    have hm : x ∉ ys := fun hh => h (List.mem_cons_of_mem y hh)
    simp [lrem1, hy, ih hm]

theorem lrem1_sublist (x : String) (l : List String) : (lrem1 x l).Sublist l := by
  induction l with
  | nil => exact List.Sublist.refl _
  | cons y ys ih =>
    by_cases hy : y = x
    · simpa [lrem1, hy] using List.sublist_cons_self y ys
    · simpa [lrem1, hy] using List.Sublist.cons₂ y ih

theorem not_mem_lrem1_of_nodup {x : String} {l : List String} (h : l.Nodup) :
    x ∉ lrem1 x l := by
  induction l with
  | nil => simp [lrem1]
  | cons y ys ih =>
    by_cases hy : y = x
    · subst hy
      simpa [lrem1] using (List.nodup_cons.mp h).1
    · intro hmem
      simp only [lrem1, if_neg hy, List.mem_cons] at hmem
      rcases hmem with hmem | hmem
      · exact hy hmem.symm
      · exact ih (List.nodup_cons.mp h).2 hmem

theorem mem_lrem1 {x y : String} {l : List String} (hne : y ≠ x) :
    y ∈ lrem1 x l ↔ y ∈ l := by
  induction l with
  | nil => simp [lrem1]
  | cons z zs ih =>
    by_cases hz : z = x
    · subst hz
      simp only [lrem1, if_pos rfl, List.mem_cons]
      constructor
      · exact fun h => Or.inr h
      · rintro (h | h)
        · exact absurd h hne
        · exact h
    · simp only [lrem1, if_neg hz, List.mem_cons, ih]

/-! ### Claim C8: the sidecar parser

The Batteries rational primitives are `@[irreducible]`; they are made
semireducible here so that concrete parses evaluate under `decide`. -/

section RatEval

attribute [local semireducible] Rat.mul Rat.add Rat.inv Rat.sub

/-- Claim C8: `parse_wcs_file` reads the file as a flat KEY = VALUE table:
a missing file yields an empty table; a line without an equals sign is
ignored; a line is split at its first equals sign with the key kept
case-sensitively; a trailing slash-comment is stripped from the value;
surrounding single quotes are removed from quoted values; the float parse
is attempted before the string fallback. -/
theorem claim_C8 :
    parse_wcs_file none = []
    ∧ (∀ (d : WDict) (l : String), '=' ∉ l.data → wcsStep d l = d)
    ∧ dictGet (parse_wcs_file (some ["CRVAL1  =   10.5 / deg"])) "CRVAL1"
        = some (WVal.num (21 / 2))
    ∧ parse_wcs_file (some ["A=B=C"]) = [("A", WVal.str "B=C")]
    ∧ dictGet (parse_wcs_file (some ["OBJECT  = \x27M31\x27 / target"])) "OBJECT"
        = some (WVal.str "M31")
    ∧ dictGet (parse_wcs_file (some ["KEY = hello"])) "KEY" = some (WVal.str "hello")
    ∧ dictGet (parse_wcs_file (some ["crval1 = 1.0"])) "CRVAL1" = none
    ∧ dictGet (parse_wcs_file (some ["crval1 = 1.0"])) "crval1" = some (WVal.num 1)
    ∧ parse_wcs_file (some ["no equals sign at all"]) = [] := by
  refine ⟨rfl, ?_, by decide, by decide, by decide, by decide, by decide, by decide, by decide⟩
  intro d l h
  have hs : splitEq (pstripList l.data) = none :=
    splitEq_eq_none (fun hm => h (mem_pstripList hm))
  simp [wcsStep, hs]

/-- Witness for the universally quantified clause of C8 at a concrete
equals-free line. -/
theorem claim_C8_witness :
    wcsStep [] "COMMENT just a remark" = [] :=
  claim_C8.2.1 [] "COMMENT just a remark" (by decide)

/-! ### Claim C5: success criterion and derived fields of the result -/

/-- Is a Python value not a string (so that `abs` and `*` cannot raise)? -/
def nonStrB : PyVal → Bool
  | PyVal.pstr _ => false
  | _ => true

/-- The value stored at `k`, when present, is numeric. -/
def keyNumeric (d : WDict) (k : String) : Bool :=
  match dictGet d k with
  | some (WVal.str _) => false
  | _ => true

theorem wget_nonStr {d : WDict} {k : String} (h : keyNumeric d k = true) :
    ∀ v, wget d k = some v → nonStrB v = true := by
  intro v hv
  unfold wget at hv
  unfold keyNumeric at h
  cases hg : dictGet d k with
  | none => rw [hg] at hv; cases hv
  | some w =>
    rw [hg] at hv h
    cases w with
    | num q => cases hv; rfl
    | str s => cases h

theorem wgetD_nonStr {d : WDict} {k : String} {dflt : PyVal}
    (h : keyNumeric d k = true) (hd : nonStrB dflt = true) :
    nonStrB (wgetD d k dflt) = true := by
  unfold wgetD
  cases hg : wget d k with
  | none => simpa using hd
  | some v => simpa using wget_nonStr h v hg

theorem absPy_ok {v : PyVal} (h : nonStrB v = true) :
    ∃ w, absPy v = Except.ok w ∧ nonStrB w = true := by
  cases v with
  | pnum q => exact ⟨PyVal.pnum |q|, rfl, rfl⟩
  | pint n => exact ⟨PyVal.pint |n|, rfl, rfl⟩
  | pstr s => cases h

theorem mulPy_ok {v w : PyVal} (hv : nonStrB v = true) (hw : nonStrB w = true) :
    ∃ u, mulPy v w = Except.ok u := by
  cases v with
  | pstr s => cases hv
  | pnum a =>
    cases w with
    | pstr s => cases hw
    | pnum b => exact ⟨_, rfl⟩
    | pint n => exact ⟨_, rfl⟩
  | pint m =>
    cases w with
    | pstr s => cases hw
    | pnum b => exact ⟨_, rfl⟩
    | pint n => exact ⟨_, rfl⟩

theorem derivedFields_ok (d : WDict)
    (h1 : keyNumeric d "CDELT1" = true) (h2 : keyNumeric d "CD1_1" = true)
    (h3 : keyNumeric d "NAXIS1" = true) (h4 : keyNumeric d "CDELT2" = true)
    (h5 : keyNumeric d "NAXIS2" = true) :
    ∃ t, derivedFields d = Except.ok t := by
  have z0 : nonStrB (PyVal.pint 0) = true := rfl
  have hd1 : nonStrB (wgetD d "CD1_1" (PyVal.pint 0)) = true := wgetD_nonStr h2 z0
  obtain ⟨a1, ha1, hn1⟩ := absPy_ok (wgetD_nonStr h1 hd1)
  obtain ⟨ps, hps⟩ := mulPy_ok hn1 (show nonStrB (PyVal.pint 3600) = true from rfl)
  have hd2 : nonStrB (wgetD d "CDELT1" (PyVal.pint 0)) = true := wgetD_nonStr h1 z0
  obtain ⟨a2, ha2, hn2⟩ := absPy_ok hd2
  have hd3 : nonStrB (wgetD d "NAXIS1" (PyVal.pint 0)) = true := wgetD_nonStr h3 z0
  obtain ⟨fw, hfw⟩ := mulPy_ok hd3 hn2
  have hd4 : nonStrB (wgetD d "CDELT2" (PyVal.pint 0)) = true := wgetD_nonStr h4 z0
  obtain ⟨a3, ha3, hn3⟩ := absPy_ok hd4
  have hd5 : nonStrB (wgetD d "NAXIS2" (PyVal.pint 0)) = true := wgetD_nonStr h5 z0
  obtain ⟨fh, hfh⟩ := mulPy_ok hd5 hn3
  refine ⟨(ps, fw, fh), ?_⟩
  simp only [derivedFields, bind, Except.bind, ha1, ha2, ha3, hps, hfw, hfh, pure,
    Except.pure]

/-- Claim C5 (amended): provided every present value under the derived-field
input keys (CDELT1, CD1_1, NAXIS1, CDELT2, NAXIS2) is numeric, a solver run
declares success exactly when CRVAL1 and CRVAL2 are both present in the
parsed table; the result then carries the parsed CRVAL1 / CRVAL2 values as
`ra` / `dec` and the orientation fallback chain, and the derived fields
default to zero when all their inputs are absent.  (Unamended, the claim is
false: a present but non-numeric CDELT1 makes the success-dict construction
raise `TypeError`, which the catch-all turns into a failure result - see
the counterexample.) -/
theorem claim_C5_amended (d : WDict) (out err : String)
    (h1 : keyNumeric d "CDELT1" = true) (h2 : keyNumeric d "CD1_1" = true)
    (h3 : keyNumeric d "NAXIS1" = true) (h4 : keyNumeric d "CDELT2" = true)
    (h5 : keyNumeric d "NAXIS2" = true) :
    ((mkSolveResult d out err).solved = true ↔
      dictHas d "CRVAL1" = true ∧ dictHas d "CRVAL2" = true)
    ∧ ((mkSolveResult d out err).success = (mkSolveResult d out err).solved)
    ∧ ((mkSolveResult d out err).solved = true →
        (mkSolveResult d out err).ra = wget d "CRVAL1"
        ∧ (mkSolveResult d out err).dec = wget d "CRVAL2"
        ∧ (mkSolveResult d out err).orientation
            = some (wgetD d "CROTA2" (wgetD d "CROTA1" (PyVal.pint 0)))
        ∧ (mkSolveResult d out err).error = none)
    ∧ ((mkSolveResult d out err).solved = false →
        (mkSolveResult d out err).error = some noSolutionMsg)
    ∧ (dictGet d "CDELT1" = none → dictGet d "CD1_1" = none →
       dictGet d "NAXIS1" = none → dictGet d "CDELT2" = none →
       dictGet d "NAXIS2" = none →
       (mkSolveResult d out err).solved = true →
        (mkSolveResult d out err).pixscale = some (PyVal.pint 0)
        ∧ (mkSolveResult d out err).fieldw = some (PyVal.pint 0)
        ∧ (mkSolveResult d out err).fieldh = some (PyVal.pint 0)) := by
  obtain ⟨t, ht⟩ := derivedFields_ok d h1 h2 h3 h4 h5
  by_cases hc : dictHas d "CRVAL1" = true ∧ dictHas d "CRVAL2" = true
  · have hcb : (dictHas d "CRVAL1" && dictHas d "CRVAL2") = true := by
      rw [hc.1, hc.2]; rfl
    have hres : mkSolveResult d out err =
        { success := true, solved := true, ra := wget d "CRVAL1", dec := wget d "CRVAL2",
          orientation := some (wgetD d "CROTA2" (wgetD d "CROTA1" (PyVal.pint 0))),
          pixscale := some t.1, fieldw := some t.2.1, fieldh := some t.2.2,
          error := none, wcs := d, stdout := some out, stderr := some err } := by
      unfold mkSolveResult
      rw [hcb, ht]
      rfl
    refine ⟨?_, ?_, ?_, ?_, ?_⟩
    · rw [hres]
      simpa using hc
    · rw [hres]
    · intro _
      rw [hres]
      exact ⟨rfl, rfl, rfl, rfl⟩
    · intro hsol
      rw [hres] at hsol
      cases hsol
    · intro g1 g2 g3 g4 g5 _
      have ht0 : derivedFields d = Except.ok (PyVal.pint 0, PyVal.pint 0, PyVal.pint 0) := by
        simp [derivedFields, wgetD, wget, g1, g2, g3, g4, g5, absPy, mulPy, bind,
          Except.bind, pure, Except.pure]
      rw [ht] at ht0
      injection ht0 with htt
      rw [hres, htt]
      exact ⟨rfl, rfl, rfl⟩
  · have hcb : (dictHas d "CRVAL1" && dictHas d "CRVAL2") = false := by
      cases hx : dictHas d "CRVAL1" <;> cases hy : dictHas d "CRVAL2" <;>
        first | rfl | exact absurd ⟨hx, hy⟩ hc
    have hres : mkSolveResult d out err =
        { success := false, solved := false, ra := none, dec := none,
          orientation := none, pixscale := none, fieldw := none, fieldh := none,
          error := some noSolutionMsg, wcs := [], stdout := some out,
          stderr := some err } := by
      unfold mkSolveResult
      rw [hcb]
      rfl
    refine ⟨?_, ?_, ?_, ?_, ?_⟩
    · rw [hres]
      simpa using hc
    · rw [hres]
    · intro hsol; rw [hres] at hsol; cases hsol
    · intro _; rw [hres]
    · intro _ _ _ _ _ hsol; rw [hres] at hsol; cases hsol

/-- The sidecar table of the C5 counterexample: both coordinate keys are
present, but CDELT1 carries a non-numeric string. -/
def c5Bad : WDict :=
  parse_wcs_file (some ["CRVAL1 = 10.5", "CRVAL2 = -5.0", "CDELT1 = FOO"])

/-- Counterexample to claim C5 as stated: the parsed table contains both
CRVAL1 and CRVAL2, yet the run does NOT declare success - building the
success dict evaluates `abs` on the string CDELT1 value, the raised
`TypeError` is caught, and a failure result is returned. -/
theorem claim_C5_counterexample :
    dictHas c5Bad "CRVAL1" = true ∧ dictHas c5Bad "CRVAL2" = true
    ∧ (mkSolveResult c5Bad "" "").solved = false
    ∧ (mkSolveResult c5Bad "" "").success = false
    ∧ (mkSolveResult c5Bad "" "").error = some absErrMsg := by
  refine ⟨by decide, by decide, by decide, by decide, by decide⟩

/-- The scenario table of the C5 claim text. -/
def c5Good : WDict := parse_wcs_file (some ["CRVAL1 = 10.5", "CRVAL2 = -5.0"])

/-- Witness for C5 at the scenario of the claim: CRVAL1=10.5, CRVAL2=-5.0
yields solved, ra 10.5, dec -5.0. -/
theorem claim_C5_witness :
    (mkSolveResult c5Good "" "").solved = true
    ∧ (mkSolveResult c5Good "" "").ra = some (PyVal.pnum (21 / 2))
    ∧ (mkSolveResult c5Good "" "").dec = some (PyVal.pnum (-5)) := by
  obtain ⟨hiff, _, himp, _, _⟩ :=
    claim_C5_amended c5Good "" "" (by decide) (by decide) (by decide) (by decide) (by decide)
  have hs : (mkSolveResult c5Good "" "").solved = true :=
    hiff.mpr ⟨by decide, by decide⟩
  obtain ⟨hra, hdec, _, _⟩ := himp hs
  refine ⟨hs, ?_, ?_⟩
  · rw [hra]; decide
  · rw [hdec]; decide

/-! ### Evaluation lemmas for `process_job` -/

theorem process_job_records_noExn (st : Store) (fs : FS) (id : String) (jr : JobRecord)
    (writes : List (String × List String)) (outcome : SubprocOutcome)
    (h : st.records id = some jr) :
    (process_job st fs id writes outcome ExnPoint.noExn).1.records id =
      some { jr with
             status := Status.completed, startedAt := true, completedAt := true,
             result := some (run_astap_solver (fsWriteAll fs writes) jr.imagePath outcome).1 } := by
  simp [process_job, h, uWorkEffect, doFinally, writeCompleted, markProcessing, updRecords]

theorem process_job_records_before (st : Store) (fs : FS) (id : String) (jr : JobRecord)
    (writes : List (String × List String)) (outcome : SubprocOutcome) (m : String)
    (h : st.records id = some jr) :
    (process_job st fs id writes outcome (ExnPoint.beforeSolver m)).1.records id =
      some { jr with
             status := Status.failed, startedAt := true, completedAt := true,
             result := some (failedResult m) } := by
  simp [process_job, h, uWorkEffect, doFinally, writeFailed, markProcessing, updRecords]

theorem process_job_records_after (st : Store) (fs : FS) (id : String) (jr : JobRecord)
    (writes : List (String × List String)) (outcome : SubprocOutcome) (m : String)
    (h : st.records id = some jr) :
    (process_job st fs id writes outcome (ExnPoint.afterSolver m)).1.records id =
      some { jr with
             status := Status.failed, startedAt := true, completedAt := true,
             result := some (failedResult m) } := by
  simp [process_job, h, uWorkEffect, doFinally, writeFailed, markProcessing, updRecords]

theorem process_job_activeJobs (st : Store) (fs : FS) (id : String)
    (writes : List (String × List String)) (outcome : SubprocOutcome) (exn : ExnPoint) :
    (process_job st fs id writes outcome exn).1.activeJobs = st.activeJobs - 1 := by
  cases h : st.records id with
  | none => simp [process_job, h, doFinally]
  | some jr =>
    cases exn <;>
      simp [process_job, h, uWorkEffect, doFinally, writeFailed, writeCompleted,
        markProcessing, updRecords]

theorem process_job_procSet (st : Store) (fs : FS) (id : String)
    (writes : List (String × List String)) (outcome : SubprocOutcome) (exn : ExnPoint) :
    id ∉ (process_job st fs id writes outcome exn).1.procSet := by
  cases h : st.records id with
  | none => simp [process_job, h, doFinally]
  | some jr =>
    cases exn <;>
      simp [process_job, h, uWorkEffect, doFinally, writeFailed, writeCompleted,
        markProcessing, updRecords]

/-! ### Claim C9: terminal status taxonomy -/

/-- Claim C9: a solver timeout, a launch failure or a no-solution run all
finish with terminal status `completed` carrying a result payload whose
success and solved flags are false and whose error field holds the reason;
status `failed` is written exactly when the execution unit itself raises an
unexpected exception outside the solver call. -/
theorem claim_C9 (st : Store) (fs : FS) (id : String) (jr : JobRecord)
    (h : st.records id = some jr) :
    (∀ writes outcome, ∃ r2,
        (process_job st fs id writes outcome ExnPoint.noExn).1.records id = some r2
        ∧ r2.status = Status.completed)
    ∧ (∀ writes outcome exn r2,
        (process_job st fs id writes outcome exn).1.records id = some r2 →
        (r2.status = Status.failed ↔ exn ≠ ExnPoint.noExn))
    ∧ (∀ writes, ∃ r2,
        (process_job st fs id writes SubprocOutcome.timeout ExnPoint.noExn).1.records id
            = some r2
        ∧ r2.status = Status.completed ∧ r2.result = some (failedResult timeoutMsg)
        ∧ (failedResult timeoutMsg).success = false
        ∧ (failedResult timeoutMsg).error = some timeoutMsg)
    ∧ (∀ writes m, ∃ r2,
        (process_job st fs id writes (SubprocOutcome.raised m) ExnPoint.noExn).1.records id
            = some r2
        ∧ r2.status = Status.completed ∧ r2.result = some (failedResult m))
    ∧ (∀ (d : WDict) (o e : String), (dictHas d "CRVAL1" && dictHas d "CRVAL2") = false →
        (mkSolveResult d o e).success = false ∧ (mkSolveResult d o e).solved = false
        ∧ (mkSolveResult d o e).error = some noSolutionMsg) := by
  refine ⟨?_, ?_, ?_, ?_, ?_⟩
  · intro writes outcome
    exact ⟨_, process_job_records_noExn st fs id jr writes outcome h, rfl⟩
  · intro writes outcome exn r2 hr2
    cases exn with
    | noExn =>
      rw [process_job_records_noExn st fs id jr writes outcome h] at hr2
      injection hr2 with hr2
      subst hr2
      simp
    | beforeSolver m =>
      rw [process_job_records_before st fs id jr writes outcome m h] at hr2
      injection hr2 with hr2
      subst hr2
      simp
    | afterSolver m =>
      rw [process_job_records_after st fs id jr writes outcome m h] at hr2
      injection hr2 with hr2
      subst hr2
      simp
  · intro writes
    refine ⟨_, process_job_records_noExn st fs id jr writes SubprocOutcome.timeout h,
      rfl, ?_, rfl, rfl⟩
    simp [run_astap_solver]
  · intro writes m
    refine ⟨_, process_job_records_noExn st fs id jr writes (SubprocOutcome.raised m) h,
      rfl, ?_⟩
    simp [run_astap_solver]
  · intro d o e hc
    unfold mkSolveResult
    rw [hc]
    exact ⟨rfl, rfl, rfl⟩

/-- Witness for C9 at a concrete store and a timed-out run. -/
theorem claim_C9_witness :
    ∃ r2, (process_job
        { records := fun j => if j = "j1" then some { emptyRecord with imagePath := "/tmp/astap-jobs/j1_a.fits" } else none,
          queue := [], activeJobs := 1, procSet := ["j1"] }
        [] "j1" [] SubprocOutcome.timeout ExnPoint.noExn).1.records "j1" = some r2
      ∧ r2.status = Status.completed := by
  obtain ⟨h1, _, _, _, _⟩ := claim_C9
    { records := fun j => if j = "j1" then some { emptyRecord with imagePath := "/tmp/astap-jobs/j1_a.fits" } else none,
      queue := [], activeJobs := 1, procSet := ["j1"] }
    [] "j1" { emptyRecord with imagePath := "/tmp/astap-jobs/j1_a.fits" } (by simp)
  exact h1 [] SubprocOutcome.timeout

/-! ### Claim C3: finalization effects -/

/-- Claim C3 (amended): for every dispatched job WHOSE RECORD STILL EXISTS
when the unit reads it, every exit path of `process_job` - normal
completion and both unexpected-exception paths - writes a terminal record
(status `completed` or `failed`, with the completion timestamp and a result
payload) in one atomic hash write, decrements the active-jobs counter, and
removes the job id from the processing set.  (When the record has already
expired the unit skips the terminal write but still decrements and removes
- see the counterexample.) -/
theorem claim_C3_amended (st : Store) (fs : FS) (id : String) (jr : JobRecord)
    (writes : List (String × List String)) (outcome : SubprocOutcome) (exn : ExnPoint)
    (h : st.records id = some jr) :
    (∃ r2, (process_job st fs id writes outcome exn).1.records id = some r2
        ∧ (r2.status = Status.completed ∨ r2.status = Status.failed)
        ∧ r2.completedAt = true ∧ r2.result.isSome = true)
    ∧ (process_job st fs id writes outcome exn).1.activeJobs = st.activeJobs - 1
    ∧ id ∉ (process_job st fs id writes outcome exn).1.procSet := by
  refine ⟨?_, process_job_activeJobs st fs id writes outcome exn,
    process_job_procSet st fs id writes outcome exn⟩
  cases exn with
  | noExn =>
    exact ⟨_, process_job_records_noExn st fs id jr writes outcome h,
      Or.inl rfl, rfl, rfl⟩
  | beforeSolver m =>
    exact ⟨_, process_job_records_before st fs id jr writes outcome m h,
      Or.inr rfl, rfl, rfl⟩
  | afterSolver m =>
    exact ⟨_, process_job_records_after st fs id jr writes outcome m h,
      Or.inr rfl, rfl, rfl⟩

/-- A store in which job `j1` has no record (the retention expiry removed
it) while the dispatch already counted it. -/
def c3Store : Store :=
  { records := fun _ => none, queue := [], activeJobs := 3, procSet := ["j1"] }

/-- Counterexample to claim C3 as stated: when the record has expired
before the unit reads it, the unit exits without writing any terminal
record - only the counter decrement and the processing-set removal
happen, so the three finalization effects do NOT all occur on this exit
path. -/
theorem claim_C3_counterexample :
    (process_job c3Store [] "j1" [] SubprocOutcome.timeout ExnPoint.noExn).1.records "j1"
        = none
    ∧ (process_job c3Store [] "j1" [] SubprocOutcome.timeout ExnPoint.noExn).1.activeJobs = 2
    ∧ "j1" ∉ (process_job c3Store [] "j1" [] SubprocOutcome.timeout ExnPoint.noExn).1.procSet := by
  refine ⟨rfl, rfl, by decide⟩

/-- Witness for the amended C3 at a concrete store, with an exception
injected after the solver call. -/
theorem claim_C3_witness :
    ∃ r2, (process_job
        { records := fun j => if j = "j1" then some emptyRecord else none,
          queue := [], activeJobs := 1, procSet := ["j1"] }
        [] "j1" [] SubprocOutcome.timeout (ExnPoint.afterSolver "boom")).1.records "j1"
          = some r2
      ∧ (r2.status = Status.completed ∨ r2.status = Status.failed)
      ∧ r2.completedAt = true ∧ r2.result.isSome = true := by
  obtain ⟨h1, _, _⟩ := claim_C3_amended
    { records := fun j => if j = "j1" then some emptyRecord else none,
      queue := [], activeJobs := 1, procSet := ["j1"] }
    [] "j1" emptyRecord [] SubprocOutcome.timeout (ExnPoint.afterSolver "boom") (by simp)
  exact h1

/-! ### Claim C2: artifact cleanup -/

theorem run_astap_solver_sidecars (fs : FS) (p : String) (outcome : SubprocOutcome) :
    fsRead (run_astap_solver fs p outcome).2 (rsplitBase p ++ ".wcs") = none
    ∧ fsRead (run_astap_solver fs p outcome).2 (rsplitBase p ++ ".ini") = none
    ∧ fsRead (run_astap_solver fs p outcome).2 (rsplitBase p ++ ".log") = none := by
  have h2 : (run_astap_solver fs p outcome).2 = sidecarCleanup fs (rsplitBase p) := by
    cases outcome <;> rfl
  rw [h2]
  unfold sidecarCleanup
  refine ⟨?_, ?_, ?_⟩
  · exact fsRead_remove_none _ (fsRead_remove_none _ (fsRead_remove _ _))
  · exact fsRead_remove_none _ (fsRead_remove _ _)
  · exact fsRead_remove _ _

/-- Claim C2 (amended): the sidecar artifacts written by the tool are
deleted on every exit path of the solver invocation (success, no-solution,
timeout, launch failure); the job input artifact is additionally deleted
whenever the execution unit finishes without an unexpected exception.
(As stated the claim is false: on the unexpected-exception paths the input
artifact survives, because its deletion sits inside the `try` block after
the result write rather than in the `finally` block - see the
counterexample.) -/
theorem claim_C2_amended (st : Store) (fs : FS) (id : String) (jr : JobRecord)
    (writes : List (String × List String)) (outcome : SubprocOutcome)
    (h : st.records id = some jr) (him : jr.imagePath ≠ "") :
    (∀ (fs2 : FS) (p : String) (oc : SubprocOutcome),
        fsRead (run_astap_solver fs2 p oc).2 (rsplitBase p ++ ".wcs") = none
        ∧ fsRead (run_astap_solver fs2 p oc).2 (rsplitBase p ++ ".ini") = none
        ∧ fsRead (run_astap_solver fs2 p oc).2 (rsplitBase p ++ ".log") = none)
    ∧ fsRead (process_job st fs id writes outcome ExnPoint.noExn).2 jr.imagePath = none
    ∧ fsRead (process_job st fs id writes outcome ExnPoint.noExn).2
        (rsplitBase jr.imagePath ++ ".wcs") = none
    ∧ fsRead (process_job st fs id writes outcome ExnPoint.noExn).2
        (rsplitBase jr.imagePath ++ ".ini") = none
    ∧ fsRead (process_job st fs id writes outcome ExnPoint.noExn).2
        (rsplitBase jr.imagePath ++ ".log") = none := by
  have hfs : (process_job st fs id writes outcome ExnPoint.noExn).2 =
      (let rr := run_astap_solver (fsWriteAll fs writes) jr.imagePath outcome
       if jr.imagePath ≠ "" ∧ fsHas rr.2 jr.imagePath then fsRemove rr.2 jr.imagePath
       else rr.2) := by
    simp [process_job, h, uWorkEffect]
  obtain ⟨hw, hi, hl⟩ :=
    run_astap_solver_sidecars (fsWriteAll fs writes) jr.imagePath outcome
  refine ⟨run_astap_solver_sidecars, ?_, ?_, ?_, ?_⟩ <;> rw [hfs] <;>
    simp only [] <;>
    by_cases hc : jr.imagePath ≠ "" ∧
      fsHas (run_astap_solver (fsWriteAll fs writes) jr.imagePath outcome).2 jr.imagePath
  · rw [if_pos hc]
    exact fsRead_remove _ _
  · rw [if_neg hc]
    rcases (not_and_or.mp hc) with hcc | hcc
    · exact absurd him hcc
    · unfold fsHas at hcc
      cases hr : fsRead (run_astap_solver (fsWriteAll fs writes) jr.imagePath outcome).2
          jr.imagePath with
      | none => rfl
      | some v =>
        rw [hr] at hcc
        simp at hcc
  · rw [if_pos hc]
    exact fsRead_remove_none _ hw
  · rw [if_neg hc]; exact hw
  · rw [if_pos hc]
    exact fsRead_remove_none _ hi
  · rw [if_neg hc]; exact hi
  · rw [if_pos hc]
    exact fsRead_remove_none _ hl
  · rw [if_neg hc]; exact hl

/-- The record of the C2 counterexample. -/
def c2Rec : JobRecord := { emptyRecord with imagePath := "/tmp/astap-jobs/j1_a.fits" }

/-- The store of the C2 counterexample. -/
def c2Store : Store :=
  { records := fun j => if j = "j1" then some c2Rec else none,
    queue := [], activeJobs := 1, procSet := ["j1"] }

/-- Counterexample to claim C2 as stated: an unexpected exception after the
solver call leaves the job marked `failed` yet the input artifact still on
disk when the unit finishes - the input artifact is NOT deleted on every
exit path. -/
theorem claim_C2_counterexample :
    fsRead (process_job c2Store [("/tmp/astap-jobs/j1_a.fits", [])] "j1" []
        (SubprocOutcome.finished "" "") (ExnPoint.afterSolver "store write failed")).2
      "/tmp/astap-jobs/j1_a.fits" = some []
    ∧ Option.map JobRecord.status
        ((process_job c2Store [("/tmp/astap-jobs/j1_a.fits", [])] "j1" []
          (SubprocOutcome.finished "" "") (ExnPoint.afterSolver "store write failed")).1.records
            "j1") = some Status.failed := by
  refine ⟨by decide, by decide⟩

/-- Witness for the amended C2 at a concrete store and a successful run. -/
theorem claim_C2_witness :
    fsRead (process_job c2Store [("/tmp/astap-jobs/j1_a.fits", [])] "j1" []
        (SubprocOutcome.finished "" "") ExnPoint.noExn).2 "/tmp/astap-jobs/j1_a.fits" = none := by
  obtain ⟨_, h2, _⟩ := claim_C2_amended c2Store [("/tmp/astap-jobs/j1_a.fits", [])] "j1" c2Rec
    [] (SubprocOutcome.finished "" "") (by simp [c2Store]) (by decide)
  exact h2

/-! ### Claim C10: option-form parsing -/

/-- Claim C10 (amended): an unparseable `fov` or `downsample` form value is
silently omitted; when `ra` and `dec` are both present and both parse, both
hints are stored; when `ra` parses but `dec` does not, `ra` ALONE is stored
(the shared try block assigns `ra` before the `dec` parse raises); when
`ra` fails to parse or either field is missing, neither is stored; and a
valid submission still succeeds with status `queued` whatever the option
fields hold.  (As stated - "one without the other, or either unparseable,
stores neither" - the claim is false on the lone-`ra` path, see the
counterexample.) -/
theorem claim_C10_amended (form : SolveForm) :
    (∀ s, form.fov = some s → pyFloat s = none → (parseOptions form).fov = none)
    ∧ (∀ s, form.downsample = some s → pyInt s = none →
        (parseOptions form).downsample = none)
    ∧ (∀ s1 s2 q1 q2, form.ra = some s1 → form.dec = some s2 →
        pyFloat s1 = some q1 → pyFloat s2 = some q2 →
        (parseOptions form).ra = some q1 ∧ (parseOptions form).dec = some q2)
    ∧ (∀ s1 s2 q1, form.ra = some s1 → form.dec = some s2 →
        pyFloat s1 = some q1 → pyFloat s2 = none →
        (parseOptions form).ra = some q1 ∧ (parseOptions form).dec = none)
    ∧ (∀ s1 s2, form.ra = some s1 → form.dec = some s2 → pyFloat s1 = none →
        (parseOptions form).ra = none ∧ (parseOptions form).dec = none)
    ∧ (form.ra = none ∨ form.dec = none →
        (parseOptions form).ra = none ∧ (parseOptions form).dec = none)
    ∧ (∀ (s : Sys) (id : String) (f : UploadFile), form.file = some f →
        f.filename ≠ "" → allowed_file f.filename = true →
        Option.map JobRecord.status ((solveApp s form id).1.store.records id)
          = some Status.queued
        ∧ (solveApp s form id).2
            = SolveResp.accepted id (s.store.queue.length + 1)) := by
  refine ⟨?_, ?_, ?_, ?_, ?_, ?_, ?_⟩
  · intro s hs hp
    simp [parseOptions, hs, hp]
  · intro s hs hp
    simp [parseOptions, hs, hp]
  · intro s1 s2 q1 q2 h1 h2 hp1 hp2
    constructor <;> simp [parseOptions, h1, h2, hp1, hp2]
  · intro s1 s2 q1 h1 h2 hp1 hp2
    constructor <;> simp [parseOptions, h1, h2, hp1, hp2]
  · intro s1 s2 h1 h2 hp1
    constructor <;> simp [parseOptions, h1, h2, hp1]
  · intro hor
    rcases hor with hn | hn
    · constructor <;> simp [parseOptions, hn]
    · cases hra : form.ra with
      | none => constructor <;> simp [parseOptions, hra]
      | some s1 => constructor <;> simp [parseOptions, hra, hn]
  · intro s id f hf hne hall
    have hb : ¬ f.filename = "" := hne
    constructor
    · simp [solveApp, hf, hb, hall, updRecords]
    · have hq : ∀ (l : List String), (l ++ [id]).length = l.length + 1 := by
        intro l
        simp
      simp [solveApp, hf, hb, hall, updRecords, hq]

/-- The form of the C10 counterexample: `ra` parses, `dec` does not. -/
def c10Form : SolveForm :=
  { file := none, fov := none, ra := some "1.0", dec := some "abc", downsample := none }

/-- Counterexample to claim C10 as stated: with `ra=1.0` and `dec=abc` the
stored snapshot keeps the lone `ra` hint and omits only `dec`, instead of
storing neither. -/
theorem claim_C10_counterexample :
    (parseOptions c10Form).ra = some 1 ∧ (parseOptions c10Form).dec = none := by
  exact ⟨by decide, by decide⟩

/-- The form of the C10 witness: both hints parse. -/
def c10Good : SolveForm :=
  { file := none, fov := none, ra := some "10.0", dec := some "-5.0", downsample := none }

/-- Witness for the amended C10: both hints parse and both are stored. -/
theorem claim_C10_witness :
    (parseOptions c10Good).ra = some 10 ∧ (parseOptions c10Good).dec = some (-5) := by
  obtain ⟨_, _, h3, _, _, _, _⟩ := claim_C10_amended c10Good
  obtain ⟨ha, hb⟩ := h3 "10.0" "-5.0" 10 (-5) rfl rfl (by decide) (by decide)
  exact ⟨ha, hb⟩

/-! ### Claim C7: submission -/

theorem string_append_data (a b : String) : (a ++ b).data = a.data ++ b.data := rfl

theorem tempPath_inj (id1 id2 f1 f2 : String) (hl : id1.length = id2.length)
    (hne : id1 ≠ id2) : tempPath id1 f1 ≠ tempPath id2 f2 := by
  intro he
  apply hne
  have hd : (tempPath id1 f1).data = (tempPath id2 f2).data := congrArg String.data he
  unfold tempPath at hd
  simp only [string_append_data, List.append_assoc] at hd
  have h2 := List.append_cancel_left hd
  have h3 := List.append_cancel_left h2
  have hlen : id1.data.length = id2.data.length := hl
  have h4 : id1.data = id2.data := List.append_inj_left h3 hlen
  cases id1
  cases id2
  exact congrArg String.mk h4

/-- Claim C7: `POST /solve` answers 400 exactly when the artifact is
missing, its filename is empty, or its extension is not allowed; otherwise
it stores the artifact at the job-unique path, creates the record with
status `queued` and the retention expiry set, appends the id to the queue
tail, and returns the id with the queue length at insertion; and the
storage path is injective in the job id (for the fixed-width generated
ids). -/
theorem claim_C7 (s : Sys) (form : SolveForm) (id : String) :
    ((∃ m, (solveApp s form id).2 = SolveResp.badRequest m) ↔
      (form.file = none
       ∨ ∃ f, form.file = some f ∧ (f.filename = "" ∨ allowed_file f.filename = false)))
    ∧ (∀ f, form.file = some f → f.filename ≠ "" → allowed_file f.filename = true →
        (solveApp s form id).1.store.records id = some
            { status := Status.queued, filename := f.filename,
              imagePath := tempPath id f.filename, options := parseOptions form,
              startedAt := false, completedAt := false, result := none, expirySet := true }
        ∧ (solveApp s form id).1.store.queue = s.store.queue ++ [id]
        ∧ fsRead (solveApp s form id).1.fs (tempPath id f.filename) = some f.content
        ∧ (solveApp s form id).2 = SolveResp.accepted id (s.store.queue.length + 1))
    ∧ (∀ id1 id2 f1 f2 : String, id1.length = id2.length → id1 ≠ id2 →
        tempPath id1 f1 ≠ tempPath id2 f2) := by
  refine ⟨?_, ?_, tempPath_inj⟩
  · cases hf : form.file with
    | none =>
      constructor
      · intro _
        exact Or.inl rfl
      · intro _
        exact ⟨"No file provided", by simp [solveApp, hf]⟩
    | some f =>
      by_cases he : f.filename = ""
      · constructor
        · intro _
          exact Or.inr ⟨f, rfl, Or.inl he⟩
        · intro _
          exact ⟨"No file selected", by simp [solveApp, hf, he]⟩
      · cases ha : allowed_file f.filename with
        | false =>
          constructor
          · intro _
            exact Or.inr ⟨f, rfl, Or.inr ha⟩
          · intro _
            exact ⟨"Invalid file type", by simp [solveApp, hf, he, ha]⟩
        | true =>
          constructor
          · rintro ⟨m, hm⟩
            simp [solveApp, hf, he, ha] at hm
          · rintro (hno | ⟨f2, hf2, hcond⟩)
            · cases hno
            · injection hf2 with hff
              subst hff
              rcases hcond with hcond | hcond
              · exact absurd hcond he
              · rw [ha] at hcond
                cases hcond
  · intro f hfile hne hall
    have hb : ¬ f.filename = "" := hne
    refine ⟨?_, ?_, ?_, ?_⟩
    · simp [solveApp, hfile, hb, hall, updRecords, tempPath]
    · simp [solveApp, hfile, hb, hall, updRecords]
    · simp only [solveApp, hfile, hb, hall]
      simp only [if_neg hb, Bool.true_eq_false, if_neg]
      exact fsRead_write s.fs (tempPath id f.filename) f.content
    · simp [solveApp, hfile, hb, hall, updRecords]

/-- The valid submission form used by witnesses and traces. -/
def okForm : SolveForm :=
  { file := some { filename := "a.fits", content := [] },
    fov := none, ra := none, dec := none, downsample := none }

/-- Witness for C7: a concrete valid submission on the fresh state is
accepted at queue position 1, and two distinct same-width ids map to
distinct storage paths. -/
theorem claim_C7_witness :
    (solveApp Sys.init okForm "j1").2 = SolveResp.accepted "j1" 1
    ∧ tempPath "aaaa" "x.fits" ≠ tempPath "abaa" "y.fits" := by
  obtain ⟨_, h2, h3⟩ := claim_C7 Sys.init okForm "j1"
  obtain ⟨_, _, _, hresp⟩ :=
    h2 { filename := "a.fits", content := [] } rfl (by decide) (by decide)
  exact ⟨hresp, h3 "aaaa" "abaa" "x.fits" "y.fits" (by decide) (by decide)⟩

/-! ### Case lemmas for the handlers on the service state -/

/-- The record a valid submission creates. -/
def submitRecord (form : SolveForm) (f : UploadFile) (id : String) : JobRecord :=
  { status := Status.queued, filename := f.filename, imagePath := tempPath id f.filename,
    options := parseOptions form, startedAt := false, completedAt := false,
    result := none, expirySet := true }

theorem validForm_iff {form : SolveForm} :
    validForm form = true ↔
      ∃ f, form.file = some f ∧ f.filename ≠ "" ∧ allowed_file f.filename = true := by
  unfold validForm
  cases hf : form.file with
  | none =>
    simp
  | some f =>
    constructor
    · intro h
      rw [Bool.and_eq_true] at h
      refine ⟨f, rfl, ?_, h.2⟩
      intro he
      rw [he] at h
      cases h.1
    · rintro ⟨f2, hf2, hne, hall⟩
      injection hf2 with hff
      subst hff
      rw [Bool.and_eq_true, hall]
      refine ⟨?_, rfl⟩
      simpa using hne

theorem solveApp_valid (s : Sys) (form : SolveForm) (id : String) (f : UploadFile)
    (hf : form.file = some f) (hne : f.filename ≠ "") (hall : allowed_file f.filename = true) :
    (solveApp s form id).1 =
      { store := { records := fun j => if j = id then some (submitRecord form f id)
                                       else s.store.records j,
                   queue := s.store.queue ++ [id],
                   activeJobs := s.store.activeJobs,
                   procSet := s.store.procSet },
        fs := fsWrite s.fs (tempPath id f.filename) f.content,
        loop := s.loop, units := s.units, used := s.used ++ [id] } := by
  have hb : ¬ f.filename = "" := hne
  simp [solveApp, hf, hb, hall, submitRecord, updRecords]

theorem cancel_job_cases (st : Store) (fs : FS) (id : String) :
    (cancel_job st fs id).1 = st
    ∨ (∃ jr, st.records id = some jr ∧ jr.status = Status.queued ∧
        (cancel_job st fs id).1 =
          updRecords { st with queue := lrem1 id st.queue } id
            (some { jr with status := Status.cancelled })) := by
  cases h : st.records id with
  | none =>
    left
    simp [cancel_job, h]
  | some jr =>
    by_cases hs : jr.status = Status.queued
    · right
      refine ⟨jr, rfl, hs, ?_⟩
      simp [cancel_job, h, hs]
    · left
      simp [cancel_job, h, hs]

theorem cancelSys_store (s : Sys) (id : String) :
    (cancelSys s id).store = (cancel_job s.store s.fs id).1 := rfl

theorem cancelSys_loop (s : Sys) (id : String) : (cancelSys s id).loop = s.loop := rfl

theorem cancelSys_units (s : Sys) (id : String) : (cancelSys s id).units = s.units := rfl

theorem cancelSys_used (s : Sys) (id : String) : (cancelSys s id).used = s.used := rfl

theorem cancel_job_activeJobs (st : Store) (fs : FS) (id : String) :
    (cancel_job st fs id).1.activeJobs = st.activeJobs := by
  rcases cancel_job_cases st fs id with h | ⟨jr, _, _, h⟩ <;> rw [h] <;> rfl

theorem uWorkEffect_activeJobs (st : Store) (fs : FS) (id p : String)
    (writes : List (String × List String)) (outcome : SubprocOutcome) (exn : ExnPoint) :
    (uWorkEffect st fs id p writes outcome exn).1.activeJobs = st.activeJobs := by
  cases exn <;> simp [uWorkEffect, writeFailed, writeCompleted, updRecords]

theorem markProcessing_activeJobs (st : Store) (id : String) :
    (markProcessing st id).activeJobs = st.activeJobs := rfl

theorem markProcessing_queue (st : Store) (id : String) :
    (markProcessing st id).queue = st.queue := rfl

theorem uWorkEffect_queue (st : Store) (fs : FS) (id p : String)
    (writes : List (String × List String)) (outcome : SubprocOutcome) (exn : ExnPoint) :
    (uWorkEffect st fs id p writes outcome exn).1.queue = st.queue := by
  cases exn <;> simp [uWorkEffect, writeFailed, writeCompleted, updRecords]

/-! ### The counter invariant (claim C1) -/

/-- Pending contribution of the worker loop to the counter: 1 exactly
between the `INCR` and the unit spawn. -/
def loopContrib : LoopPC → Int
  | LoopPC.didIncr _ => 1
  | _ => 0

/-- Counter invariant: the counter equals the number of live execution
units plus the loop contribution, is bounded by the ceiling, and is
additionally bounded by the value the loop last read while the loop is
between its read and its increment. -/
structure InvC (C : Int) (s : Sys) : Prop where
  count : s.store.activeJobs = (s.units.length : Int) + loopContrib s.loop
  ub : s.store.activeJobs ≤ C
  ctr : ∀ c, s.loop = LoopPC.haveCtr c → s.store.activeJobs ≤ c
  popped : ∀ c id, s.loop = LoopPC.havePopped c id → s.store.activeJobs ≤ c ∧ c < C

theorem invC_init {C : Int} (hC : 0 ≤ C) : InvC C Sys.init := by
  refine ⟨rfl, hC, ?_, ?_⟩
  · intro c hc
    cases hc
  · intro c id hp
    cases hp

theorem invC_step {C : Int} {s t : Sys} (hs : InvC C s) (hst : StepAll C s t) :
    InvC C t := by
  obtain ⟨hA, hB, hBc, hBp⟩ := hs
  rcases hst with hcore | hexp
  · cases hcore with
    | readCtr h =>
      refine ⟨?_, hB, ?_, ?_⟩
      · rw [h] at hA
        simpa [loopContrib] using hA
      · intro c hc
        injection hc with hcc
        rw [hcc]
      · intro c id hp
        cases hp
    | loopFull c h hc =>
      refine ⟨?_, hB, ?_, ?_⟩
      · rw [h] at hA
        simpa [loopContrib] using hA
      · intro c2 hc2
        cases hc2
      · intro c2 id hp
        cases hp
    | popMiss c h hc hq =>
      refine ⟨?_, hB, ?_, ?_⟩
      · rw [h] at hA
        simpa [loopContrib] using hA
      · intro c2 hc2
        cases hc2
      · intro c2 id hp
        cases hp
    | popOk c id rest h hc hq =>
      refine ⟨?_, hB, ?_, ?_⟩
      · rw [h] at hA
        simpa [loopContrib] using hA
      · intro c2 hc2
        cases hc2
      · intro c2 id2 hp
        injection hp with hcc hii
        rw [← hcc]
        exact ⟨hBc c h, hc⟩
    | incrCtr c id h =>
      have hcp := hBp c id h
      refine ⟨?_, ?_, ?_, ?_⟩
      · rw [h] at hA
        simp only [loopContrib] at hA ⊢
        simp only [hA]
        ring
      · have : s.store.activeJobs + 1 ≤ c + 1 := by omega
        calc s.store.activeJobs + 1 ≤ c + 1 := this
          _ ≤ C := by omega
      · intro c2 hc2
        cases hc2
      · intro c2 id2 hp
        cases hp
    | spawn id h =>
      refine ⟨?_, hB, ?_, ?_⟩
      · rw [h] at hA
        simp only [loopContrib] at hA ⊢
        simp [hA]
      · intro c2 hc2
        cases hc2
      · intro c2 id2 hp
        cases hp
    | uRead id u1 u2 h =>
      have hlen : ((applyURead s id u1 u2).units.length : Int) = (s.units.length : Int) := by
        unfold applyURead
        cases s.store.records id <;> simp [h]
      have hst2 : (applyURead s id u1 u2).store.activeJobs = s.store.activeJobs := by
        unfold applyURead
        cases s.store.records id <;> simp [markProcessing_activeJobs]
      have hloop : (applyURead s id u1 u2).loop = s.loop := by
        unfold applyURead
        cases s.store.records id <;> rfl
      refine ⟨?_, ?_, ?_, ?_⟩
      · rw [hst2, hlen, hloop]
        exact hA
      · rw [hst2]
        exact hB
      · intro c hc
        rw [hloop] at hc
        rw [hst2]
        exact hBc c hc
      · intro c id2 hp
        rw [hloop] at hp
        rw [hst2]
        exact hBp c id2 hp
    | uWork id p u1 u2 writes outcome exn h =>
      refine ⟨?_, ?_, ?_, ?_⟩
      · simp only [applyUWork, uWorkEffect_activeJobs]
        simpa [h] using hA
      · simp only [applyUWork, uWorkEffect_activeJobs]
        exact hB
      · intro c hc
        simp only [applyUWork, uWorkEffect_activeJobs]
        exact hBc c hc
      · intro c id2 hp
        simp only [applyUWork, uWorkEffect_activeJobs]
        exact hBp c id2 hp
    | uFin id u1 u2 h =>
      refine ⟨?_, ?_, ?_, ?_⟩
      · simp only [doFinally]
        rw [hA, h]
        simp
        ring
      · simp only [doFinally]
        omega
      · intro c hc
        simp only [doFinally]
        have := hBc c hc
        omega
      · intro c id2 hp
        have := hBp c id2 hp
        simp only [doFinally]
        constructor
        · omega
        · exact this.2
    | submit form id hfresh hv =>
      obtain ⟨f, hf, hne, hall⟩ := validForm_iff.mp hv
      rw [solveApp_valid s form id f hf hne hall]
      exact ⟨hA, hB, hBc, hBp⟩
    | cancelS id =>
      refine ⟨?_, ?_, ?_, ?_⟩
      · rw [cancelSys_store, cancel_job_activeJobs, cancelSys_units, cancelSys_loop]
        exact hA
      · rw [cancelSys_store, cancel_job_activeJobs]
        exact hB
      · intro c hc
        rw [cancelSys_loop] at hc
        rw [cancelSys_store, cancel_job_activeJobs]
        exact hBc c hc
      · intro c id2 hp
        rw [cancelSys_loop] at hp
        rw [cancelSys_store, cancel_job_activeJobs]
        exact hBp c id2 hp
  · cases hexp with
    | mk id r h1 h2 =>
      exact ⟨hA, hB, hBc, hBp⟩

theorem invC_reach {C : Int} (hC : 0 ≤ C) {s : Sys} (h : Reach C s) : InvC C s := by
  induction h with
  | refl => exact invC_init hC
  | tail h1 h2 ih => exact invC_step ih h2

/-- Claim C1: with the single dispatch loop, the active-jobs counter stays
within bounds - `0 ≤ counter ≤ ceiling` - in every reachable state, the
states between the loop reading the counter, popping the queue and
incrementing, and the states around every execution-unit decrement,
included. -/
theorem claim_C1 (C : Int) (hC : 0 ≤ C) (s : Sys) (h : Reach C s) :
    0 ≤ s.store.activeJobs ∧ s.store.activeJobs ≤ C := by
  obtain ⟨hA, hB, _, _⟩ := invC_reach hC h
  refine ⟨?_, hB⟩
  rw [hA]
  have h1 : (0 : Int) ≤ (s.units.length : Int) := Int.ofNat_nonneg _
  have h2 : (0 : Int) ≤ loopContrib s.loop := by
    cases s.loop <;> simp [loopContrib]
  omega

/-- Witness for C1 at the initial state with the default ceiling 2. -/
theorem claim_C1_witness :
    0 ≤ Sys.init.store.activeJobs ∧ Sys.init.store.activeJobs ≤ 2 :=
  claim_C1 2 (by decide) Sys.init Relation.ReflTransGen.refl

/-! ### Global structural invariant (queue uniqueness, id freshness,
cancelled jobs out of the queue) -/

/-- The job id is currently held by the loop or by an execution unit. -/
def inFlight (s : Sys) (id : String) : Prop :=
  (∃ c, s.loop = LoopPC.havePopped c id) ∨ s.loop = LoopPC.didIncr id
  ∨ ∃ ph, (id, ph) ∈ s.units

theorem nodup_concat {a : String} {l : List String} (h : l.Nodup) (ha : a ∉ l) :
    (l ++ [a]).Nodup := by
  induction l with
  | nil => simp
  | cons x xs ih =>
    obtain ⟨hx, hxs⟩ := List.nodup_cons.mp h
    have hax : a ∉ xs := fun hm => ha (List.mem_cons_of_mem x hm)
    refine List.nodup_cons.mpr ⟨?_, ih hxs hax⟩
    intro hm
    rcases List.mem_append.mp hm with hm | hm
    · exact hx hm
    · have : x = a := by simpa using hm
      exact ha (this ▸ List.mem_cons_self x xs)

/-- Structural invariant, preserved by every step including expiry. -/
structure InvG (s : Sys) : Prop where
  nodup : s.store.queue.Nodup
  qUsed : ∀ id, id ∈ s.store.queue → id ∈ s.used
  rUsed : ∀ id, s.store.records id ≠ none → id ∈ s.used
  fUsed : ∀ id, inFlight s id → id ∈ s.used
  cNotQ : ∀ id r, s.store.records id = some r → r.status = Status.cancelled →
            id ∉ s.store.queue

theorem invG_init : InvG Sys.init := by
  refine ⟨List.nodup_nil, ?_, ?_, ?_, ?_⟩
  · intro id h
    cases h
  · intro id h
    exact absurd rfl h
  · intro id h
    rcases h with ⟨c, hc⟩ | hc | ⟨ph, hm⟩
    · cases hc
    · cases hc
    · cases hm
  · intro id r h _
    cases h

theorem invG_step {C : Int} {s t : Sys} (hs : InvG s) (hst : StepAll C s t) : InvG t := by
  obtain ⟨hN, hQ, hR, hF, hC5⟩ := hs
  rcases hst with hcore | hexp
  · cases hcore with
    | readCtr h =>
      refine ⟨hN, hQ, hR, ?_, hC5⟩
      intro id hf
      rcases hf with ⟨c, hc⟩ | hc | hm
      · cases hc
      · cases hc
      · exact hF id (Or.inr (Or.inr hm))
    | loopFull c h hc =>
      refine ⟨hN, hQ, hR, ?_, hC5⟩
      intro id hf
      rcases hf with ⟨c2, hc2⟩ | hc2 | hm
      · cases hc2
      · cases hc2
      · exact hF id (Or.inr (Or.inr hm))
    | popMiss c h hc hq =>
      refine ⟨hN, hQ, hR, ?_, hC5⟩
      intro id hf
      rcases hf with ⟨c2, hc2⟩ | hc2 | hm
      · cases hc2
      · cases hc2
      · exact hF id (Or.inr (Or.inr hm))
    | popOk c id rest h hc hq =>
      have hidq : id ∈ s.store.queue := by
        rw [hq]
        exact List.mem_cons_self id rest
      refine ⟨?_, ?_, hR, ?_, ?_⟩
      · rw [hq] at hN
        exact (List.nodup_cons.mp hN).2
      · intro id2 hm
        apply hQ
        rw [hq]
        exact List.mem_cons_of_mem id hm
      · intro id2 hf
        rcases hf with ⟨c2, hc2⟩ | hc2 | hm
        · injection hc2 with h1 h2
          rw [← h2]
          exact hQ id hidq
        · cases hc2
        · exact hF id2 (Or.inr (Or.inr hm))
      · intro id2 r hrec hcan
        have := hC5 id2 r hrec hcan
        intro hm
        apply this
        rw [hq]
        exact List.mem_cons_of_mem id hm
    | incrCtr c id h =>
      refine ⟨hN, hQ, hR, ?_, hC5⟩
      intro id2 hf
      rcases hf with ⟨c2, hc2⟩ | hc2 | hm
      · cases hc2
      · injection hc2 with h2
        rw [← h2]
        exact hF id (Or.inl ⟨c, h⟩)
      · exact hF id2 (Or.inr (Or.inr hm))
    | spawn id h =>
      refine ⟨hN, hQ, hR, ?_, hC5⟩
      intro id2 hf
      rcases hf with ⟨c2, hc2⟩ | hc2 | ⟨ph, hm⟩
      · cases hc2
      · cases hc2
      · rcases List.mem_append.mp hm with hm | hm
        · exact hF id2 (Or.inr (Or.inr ⟨ph, hm⟩))
        · have : id2 = id := by
            have := List.mem_singleton.mp hm
            exact congrArg Prod.fst this
          rw [this]
          exact hF id (Or.inr (Or.inl h))
    | uRead id u1 u2 h =>
      unfold applyURead
      cases hrec : s.store.records id with
      | none =>
        refine ⟨hN, hQ, hR, ?_, hC5⟩
        intro id2 hf
        rcases hf with ⟨c2, hc2⟩ | hc2 | ⟨ph, hm⟩
        · exact hF id2 (Or.inl ⟨c2, hc2⟩)
        · exact hF id2 (Or.inr (Or.inl hc2))
        · simp only [List.mem_append, List.mem_cons] at hm
          rcases hm with hm | hm | hm
          · exact hF id2 (Or.inr (Or.inr ⟨ph, by rw [h]; simp [hm]⟩))
          · have : id2 = id := congrArg Prod.fst hm
            rw [this]
            exact hF id (Or.inr (Or.inr ⟨UPhase.pending, by rw [h]; simp⟩))
          · exact hF id2 (Or.inr (Or.inr ⟨ph, by rw [h]; simp [hm]⟩))
      | some jr =>
        refine ⟨?_, ?_, ?_, ?_, ?_⟩
        · simpa [markProcessing_queue] using hN
        · intro id2 hm
          rw [markProcessing_queue] at hm
          exact hQ id2 hm
        · intro id2 hr2
          by_cases hii : id2 = id
          · rw [hii]
            exact hR id (by rw [hrec]; simp)
          · apply hR id2
            simpa [markProcessing, updRecords, hii] using hr2
        · intro id2 hf
          rcases hf with ⟨c2, hc2⟩ | hc2 | ⟨ph, hm⟩
          · exact hF id2 (Or.inl ⟨c2, hc2⟩)
          · exact hF id2 (Or.inr (Or.inl hc2))
          · simp only [List.mem_append, List.mem_cons] at hm
            rcases hm with hm | hm | hm
            · exact hF id2 (Or.inr (Or.inr ⟨ph, by rw [h]; simp [hm]⟩))
            · have : id2 = id := congrArg Prod.fst hm
              rw [this]
              exact hF id (Or.inr (Or.inr ⟨UPhase.pending, by rw [h]; simp⟩))
            · exact hF id2 (Or.inr (Or.inr ⟨ph, by rw [h]; simp [hm]⟩))
        · intro id2 r hrec2 hcan
          rw [markProcessing_queue]
          by_cases hii : id2 = id
          · rw [hii] at hrec2
            have : r.status = Status.processing := by
              simp [markProcessing, updRecords] at hrec2
              rw [← hrec2]
            rw [this] at hcan
            cases hcan
          · apply hC5 id2 r ?_ hcan
            simpa [markProcessing, updRecords, hii] using hrec2
    | uWork id p u1 u2 writes outcome exn h =>
      refine ⟨?_, ?_, ?_, ?_, ?_⟩
      · simpa [applyUWork, uWorkEffect_queue] using hN
      · intro id2 hm
        simp only [applyUWork, uWorkEffect_queue] at hm
        exact hQ id2 hm
      · intro id2 hr2
        by_cases hii : id2 = id
        · rw [hii]
          exact hF id (Or.inr (Or.inr ⟨UPhase.running p, by rw [h]; simp⟩))
        · apply hR id2
          cases exn <;>
            simpa [applyUWork, uWorkEffect, writeFailed, writeCompleted, updRecords, hii]
              using hr2
      · intro id2 hf
        rcases hf with ⟨c2, hc2⟩ | hc2 | ⟨ph, hm⟩
        · exact hF id2 (Or.inl ⟨c2, by simpa [applyUWork] using hc2⟩)
        · exact hF id2 (Or.inr (Or.inl (by simpa [applyUWork] using hc2)))
        · simp only [applyUWork, List.mem_append, List.mem_cons] at hm
          rcases hm with hm | hm | hm
          · exact hF id2 (Or.inr (Or.inr ⟨ph, by rw [h]; simp [hm]⟩))
          · have : id2 = id := congrArg Prod.fst hm
            rw [this]
            exact hF id (Or.inr (Or.inr ⟨UPhase.running p, by rw [h]; simp⟩))
          · exact hF id2 (Or.inr (Or.inr ⟨ph, by rw [h]; simp [hm]⟩))
      · intro id2 r hrec2 hcan
        simp only [applyUWork, uWorkEffect_queue]
        by_cases hii : id2 = id
        · rw [hii] at hrec2
          simp only [applyUWork] at hrec2
          cases exn with
          | noExn =>
            have : r.status = Status.completed := by
              simp [uWorkEffect, writeCompleted, updRecords] at hrec2
              rw [← hrec2]
            rw [this] at hcan
            cases hcan
          | beforeSolver m =>
            have : r.status = Status.failed := by
              simp [uWorkEffect, writeFailed, updRecords] at hrec2
              rw [← hrec2]
            rw [this] at hcan
            cases hcan
          | afterSolver m =>
            have : r.status = Status.failed := by
              simp [uWorkEffect, writeFailed, updRecords] at hrec2
              rw [← hrec2]
            rw [this] at hcan
            cases hcan
        · apply hC5 id2 r ?_ hcan
          simp only [applyUWork] at hrec2
          cases exn <;>
            simpa [uWorkEffect, writeFailed, writeCompleted, updRecords, hii] using hrec2
    | uFin id u1 u2 h =>
      refine ⟨hN, hQ, hR, ?_, hC5⟩
      intro id2 hf
      rcases hf with ⟨c2, hc2⟩ | hc2 | ⟨ph, hm⟩
      · exact hF id2 (Or.inl ⟨c2, hc2⟩)
      · exact hF id2 (Or.inr (Or.inl hc2))
      · rcases List.mem_append.mp hm with hm | hm
        · exact hF id2 (Or.inr (Or.inr ⟨ph, by rw [h]; simp [hm]⟩))
        · exact hF id2 (Or.inr (Or.inr ⟨ph, by rw [h]; simp [hm]⟩))
    | submit form id hfresh hv =>
      obtain ⟨f, hf, hne, hall⟩ := validForm_iff.mp hv
      rw [solveApp_valid s form id f hf hne hall]
      have hidnq : id ∉ s.store.queue := fun hm => hfresh (hQ id hm)
      refine ⟨?_, ?_, ?_, ?_, ?_⟩
      · exact nodup_concat hN hidnq
      · intro id2 hm
        rcases List.mem_append.mp hm with hm | hm
        · exact List.mem_append.mpr (Or.inl (hQ id2 hm))
        · exact List.mem_append.mpr (Or.inr hm)
      · intro id2 hr2
        by_cases hii : id2 = id
        · rw [hii]
          exact List.mem_append.mpr (Or.inr (List.mem_singleton.mpr rfl))
        · simp only [hii, if_false] at hr2
          have : id2 ∈ s.used := hR id2 (by simpa [hii] using hr2)
          exact List.mem_append.mpr (Or.inl this)
      · intro id2 hf2
        have : inFlight s id2 := by
          rcases hf2 with ⟨c2, hc2⟩ | hc2 | ⟨ph, hm⟩
          · exact Or.inl ⟨c2, hc2⟩
          · exact Or.inr (Or.inl hc2)
          · exact Or.inr (Or.inr ⟨ph, hm⟩)
        exact List.mem_append.mpr (Or.inl (hF id2 this))
      · intro id2 r hrec2 hcan
        by_cases hii : id2 = id
        · rw [hii] at hrec2
          have hsr : submitRecord form f id = r := by simpa using hrec2
          rw [← hsr] at hcan
          cases hcan
        · simp only [hii, if_false] at hrec2
          have h1 : id2 ∉ s.store.queue := hC5 id2 r (by simpa [hii] using hrec2) hcan
          intro hm
          rcases List.mem_append.mp hm with hm | hm
          · exact h1 hm
          · exact hii (List.mem_singleton.mp hm)
    | cancelS id =>
      rcases cancel_job_cases s.store s.fs id with hcc | ⟨jr, hrec, hqd, hcc⟩
      · have hsto : (cancelSys s id).store = s.store := by
          rw [cancelSys_store, hcc]
        refine ⟨?_, ?_, ?_, ?_, ?_⟩ <;>
          simp only [hsto, cancelSys_loop, cancelSys_units, cancelSys_used]
        · exact hN
        · exact hQ
        · exact hR
        · intro id2 hf2
          apply hF id2
          rcases hf2 with ⟨c2, hc2⟩ | hc2 | ⟨ph, hm⟩
          · exact Or.inl ⟨c2, hc2⟩
          · exact Or.inr (Or.inl hc2)
          · exact Or.inr (Or.inr ⟨ph, hm⟩)
        · exact hC5
      · have hsto : (cancelSys s id).store =
            updRecords { s.store with queue := lrem1 id s.store.queue } id
              (some { jr with status := Status.cancelled }) := by
          rw [cancelSys_store, hcc]
        refine ⟨?_, ?_, ?_, ?_, ?_⟩
        · rw [hsto]
          exact List.Nodup.sublist (lrem1_sublist id s.store.queue) hN
        · intro id2 hm
          rw [hsto] at hm
          simp only [cancelSys_used]
          exact hQ id2 ((lrem1_sublist id s.store.queue).mem hm)
        · intro id2 hr2
          rw [hsto] at hr2
          simp only [cancelSys_used]
          by_cases hii : id2 = id
          · rw [hii]
            exact hR id (by rw [hrec]; simp)
          · apply hR id2
            simpa [updRecords, hii] using hr2
        · intro id2 hf2
          simp only [cancelSys_used]
          apply hF id2
          rcases hf2 with ⟨c2, hc2⟩ | hc2 | ⟨ph, hm⟩
          · exact Or.inl ⟨c2, by simpa [cancelSys_loop] using hc2⟩
          · exact Or.inr (Or.inl (by simpa [cancelSys_loop] using hc2))
          · exact Or.inr (Or.inr ⟨ph, by simpa [cancelSys_units] using hm⟩)
        · intro id2 r hrec2 hcan
          rw [hsto] at hrec2 ⊢
          by_cases hii : id2 = id
          · rw [hii]
            simp only [updRecords]
            exact not_mem_lrem1_of_nodup hN
          · have h1 : id2 ∉ s.store.queue := by
              apply hC5 id2 r ?_ hcan
              simpa [updRecords, hii] using hrec2
            simp only [updRecords]
            intro hm
            exact h1 ((lrem1_sublist id s.store.queue).mem hm)
  · cases hexp with
    | mk id r h1 h2 =>
      refine ⟨hN, hQ, ?_, ?_, ?_⟩
      · intro id2 hr2
        by_cases hii : id2 = id
        · rw [hii]
          exact hR id (by rw [h1]; simp)
        · apply hR id2
          simpa [delRecord, updRecords, hii] using hr2
      · intro id2 hf2
        apply hF id2
        rcases hf2 with ⟨c2, hc2⟩ | hc2 | ⟨ph, hm⟩
        · exact Or.inl ⟨c2, hc2⟩
        · exact Or.inr (Or.inl hc2)
        · exact Or.inr (Or.inr ⟨ph, hm⟩)
      · intro id2 r2 hrec2 hcan
        by_cases hii : id2 = id
        · rw [hii] at hrec2
          simp [delRecord, updRecords] at hrec2
        · apply hC5 id2 r2 ?_ hcan
          simpa [delRecord, updRecords, hii] using hrec2

theorem invG_reach {C : Int} {s : Sys} (h : Reach C s) : InvG s := by
  induction h with
  | refl => exact invG_init
  | tail h1 h2 ih => exact invG_step ih h2

/-! ### The queue/status invariant without expiry (claim C4) -/

/-- The job id has been popped but its execution unit has not yet read the
record: the window in which its record still says `queued` while the id is
no longer in the queue. -/
def limboP (s : Sys) (id : String) : Prop :=
  (∃ c, s.loop = LoopPC.havePopped c id) ∨ s.loop = LoopPC.didIncr id
  ∨ (id, UPhase.pending) ∈ s.units

theorem limboP_inFlight {s : Sys} {id : String} (h : limboP s id) : inFlight s id := by
  rcases h with h | h | h
  · exact Or.inl h
  · exact Or.inr (Or.inl h)
  · exact Or.inr (Or.inr ⟨UPhase.pending, h⟩)

/-- Invariant of expiry-free executions: ids in the queue carry `queued`
records, `queued` records are in the queue or in the dispatch window, and
in-flight ids are never in the queue. -/
structure InvNE (s : Sys) : Prop where
  qRec : ∀ id, id ∈ s.store.queue →
          ∃ r, s.store.records id = some r ∧ r.status = Status.queued
  recQ : ∀ id r, s.store.records id = some r → r.status = Status.queued →
          id ∈ s.store.queue ∨ limboP s id
  fNotQ : ∀ id, inFlight s id → id ∉ s.store.queue

theorem invNE_init : InvNE Sys.init := by
  refine ⟨?_, ?_, ?_⟩
  · intro id h
    cases h
  · intro id r h _
    cases h
  · intro id _ h
    cases h

theorem invNE_step {C : Int} {s t : Sys} (hG : InvG s) (hs : InvNE s)
    (hst : StepCore C s t) : InvNE t := by
  obtain ⟨hQR, hRQ, hFQ⟩ := hs
  cases hst with
  | readCtr h =>
    refine ⟨hQR, ?_, ?_⟩
    · intro id r hr hq
      rcases hRQ id r hr hq with hm | hl
      · exact Or.inl hm
      · right
        rcases hl with ⟨c, hc⟩ | hc | hc
        · rw [h] at hc
          cases hc
        · rw [h] at hc
          cases hc
        · exact Or.inr (Or.inr hc)
    · intro id hf
      apply hFQ id
      rcases hf with ⟨c, hc⟩ | hc | hc
      · cases hc
      · cases hc
      · exact Or.inr (Or.inr hc)
  | loopFull c h hc =>
    refine ⟨hQR, ?_, ?_⟩
    · intro id r hr hq
      rcases hRQ id r hr hq with hm | hl
      · exact Or.inl hm
      · right
        rcases hl with ⟨c2, hc2⟩ | hc2 | hc2
        · rw [h] at hc2
          cases hc2
        · rw [h] at hc2
          cases hc2
        · exact Or.inr (Or.inr hc2)
    · intro id hf
      apply hFQ id
      rcases hf with ⟨c2, hc2⟩ | hc2 | hc2
      · cases hc2
      · cases hc2
      · exact Or.inr (Or.inr hc2)
  | popMiss c h hc hq =>
    refine ⟨hQR, ?_, ?_⟩
    · intro id r hr hqd
      rcases hRQ id r hr hqd with hm | hl
      · exact Or.inl hm
      · right
        rcases hl with ⟨c2, hc2⟩ | hc2 | hc2
        · rw [h] at hc2
          cases hc2
        · rw [h] at hc2
          cases hc2
        · exact Or.inr (Or.inr hc2)
    · intro id hf
      apply hFQ id
      rcases hf with ⟨c2, hc2⟩ | hc2 | hc2
      · cases hc2
      · cases hc2
      · exact Or.inr (Or.inr hc2)
  | popOk c id rest h hc hq =>
    have hnotrest : id ∉ rest := by
      have := hG.nodup
      rw [hq] at this
      exact (List.nodup_cons.mp this).1
    refine ⟨?_, ?_, ?_⟩
    · intro id2 hm
      exact hQR id2 (by rw [hq]; exact List.mem_cons_of_mem id hm)
    · intro id2 r hr hqd
      rcases hRQ id2 r hr hqd with hm | hl
      · rw [hq] at hm
        rcases List.mem_cons.mp hm with hm | hm
        · right
          left
          exact ⟨c, by rw [hm]⟩
        · exact Or.inl hm
      · right
        rcases hl with ⟨c2, hc2⟩ | hc2 | hc2
        · rw [h] at hc2
          cases hc2
        · rw [h] at hc2
          cases hc2
        · exact Or.inr (Or.inr hc2)
    · intro id2 hf
      rcases hf with ⟨c2, hc2⟩ | hc2 | hc2
      · injection hc2 with h1 h2
        rw [← h2]
        exact hnotrest
      · cases hc2
      · intro hm
        exact hFQ id2 (Or.inr (Or.inr hc2)) (by rw [hq]; exact List.mem_cons_of_mem id hm)
  | incrCtr c id h =>
    refine ⟨hQR, ?_, ?_⟩
    · intro id2 r hr hqd
      rcases hRQ id2 r hr hqd with hm | hl
      · exact Or.inl hm
      · right
        rcases hl with ⟨c2, hc2⟩ | hc2 | hc2
        · rw [h] at hc2
          injection hc2 with h1 h2
          rw [← h2]
          exact Or.inr (Or.inl rfl)
        · rw [h] at hc2
          cases hc2
        · exact Or.inr (Or.inr hc2)
    · intro id2 hf
      apply hFQ id2
      rcases hf with ⟨c2, hc2⟩ | hc2 | hc2
      · cases hc2
      · injection hc2 with h2
        rw [← h2]
        exact Or.inl ⟨c, h⟩
      · exact Or.inr (Or.inr hc2)
  | spawn id h =>
    refine ⟨hQR, ?_, ?_⟩
    · intro id2 r hr hqd
      rcases hRQ id2 r hr hqd with hm | hl
      · exact Or.inl hm
      · right
        right
        right
        rcases hl with ⟨c2, hc2⟩ | hc2 | hc2
        · rw [h] at hc2
          cases hc2
        · rw [h] at hc2
          injection hc2 with h2
          rw [h2]
          simp
        · simp [hc2]
    · intro id2 hf
      apply hFQ id2
      rcases hf with ⟨c2, hc2⟩ | hc2 | ⟨ph, hm⟩
      · cases hc2
      · cases hc2
      · rcases List.mem_append.mp hm with hm | hm
        · exact Or.inr (Or.inr ⟨ph, hm⟩)
        · have : id2 = id := congrArg Prod.fst (List.mem_singleton.mp hm)
          rw [this]
          exact Or.inr (Or.inl h)
  | uRead id u1 u2 h =>
    have hidf : inFlight s id :=
      Or.inr (Or.inr ⟨UPhase.pending, by rw [h]; simp⟩)
    unfold applyURead
    cases hrec : s.store.records id with
    | none =>
      refine ⟨hQR, ?_, ?_⟩
      · intro id2 r hr hqd
        rcases hRQ id2 r hr hqd with hm | hl
        · exact Or.inl hm
        · right
          rcases hl with ⟨c2, hc2⟩ | hc2 | hm
          · exact Or.inl ⟨c2, hc2⟩
          · exact Or.inr (Or.inl hc2)
          · right
            right
            rw [h] at hm
            simp only [List.mem_append, List.mem_cons] at hm
            rcases hm with hm | hm | hm
            · simp [hm]
            · exfalso
              have h2 : id2 = id := congrArg Prod.fst hm
              rw [h2] at hr
              rw [hrec] at hr
              cases hr
            · simp [hm]
      · intro id2 hf
        apply hFQ id2
        rcases hf with ⟨c2, hc2⟩ | hc2 | ⟨ph, hm⟩
        · exact Or.inl ⟨c2, hc2⟩
        · exact Or.inr (Or.inl hc2)
        · simp only [List.mem_append, List.mem_cons] at hm
          rcases hm with hm | hm | hm
          · exact Or.inr (Or.inr ⟨ph, by rw [h]; simp [hm]⟩)
          · have h2 : id2 = id := congrArg Prod.fst hm
            rw [h2]
            exact hidf
          · exact Or.inr (Or.inr ⟨ph, by rw [h]; simp [hm]⟩)
    | some jr =>
      refine ⟨?_, ?_, ?_⟩
      · intro id2 hm
        rw [markProcessing_queue] at hm
        obtain ⟨r, hr, hrq⟩ := hQR id2 hm
        have hii : id2 ≠ id := by
          intro he
          exact hFQ id hidf (he ▸ hm)
        refine ⟨r, ?_, hrq⟩
        simpa [markProcessing, updRecords, hii] using hr
      · intro id2 r hr hqd
        by_cases hii : id2 = id
        · exfalso
          rw [hii] at hr
          simp only [markProcessing, updRecords, if_pos rfl] at hr
          injection hr with hx
          rw [← hx] at hqd
          cases hqd
        · have hr2 : s.store.records id2 = some r := by
            simpa [markProcessing, updRecords, hii] using hr
          rcases hRQ id2 r hr2 hqd with hm | hl
          · left
            rw [markProcessing_queue]
            exact hm
          · right
            rcases hl with ⟨c2, hc2⟩ | hc2 | hm
            · exact Or.inl ⟨c2, hc2⟩
            · exact Or.inr (Or.inl hc2)
            · right
              right
              rw [h] at hm
              simp only [List.mem_append, List.mem_cons] at hm
              rcases hm with hm | hm | hm
              · simp [hm]
              · exfalso
                exact hii (congrArg Prod.fst hm)
              · simp [hm]
      · intro id2 hf
        rw [markProcessing_queue]
        apply hFQ id2
        rcases hf with ⟨c2, hc2⟩ | hc2 | ⟨ph, hm⟩
        · exact Or.inl ⟨c2, hc2⟩
        · exact Or.inr (Or.inl hc2)
        · simp only [List.mem_append, List.mem_cons] at hm
          rcases hm with hm | hm | hm
          · exact Or.inr (Or.inr ⟨ph, by rw [h]; simp [hm]⟩)
          · have h2 : id2 = id := congrArg Prod.fst hm
            rw [h2]
            exact hidf
          · exact Or.inr (Or.inr ⟨ph, by rw [h]; simp [hm]⟩)
  | uWork id p u1 u2 writes outcome exn h =>
    have hidf : inFlight s id :=
      Or.inr (Or.inr ⟨UPhase.running p, by rw [h]; simp⟩)
    refine ⟨?_, ?_, ?_⟩
    · intro id2 hm
      simp only [applyUWork, uWorkEffect_queue] at hm
      obtain ⟨r, hr, hrq⟩ := hQR id2 hm
      have hii : id2 ≠ id := by
        intro he
        exact hFQ id hidf (he ▸ hm)
      refine ⟨r, ?_, hrq⟩
      simp only [applyUWork]
      cases exn <;>
        simpa [uWorkEffect, writeFailed, writeCompleted, updRecords, hii] using hr
    · intro id2 r hr hqd
      by_cases hii : id2 = id
      · exfalso
        rw [hii] at hr
        simp only [applyUWork] at hr
        cases exn with
        | noExn =>
          simp only [uWorkEffect, writeCompleted, updRecords, if_pos rfl] at hr
          injection hr with hx
          rw [← hx] at hqd
          cases hqd
        | beforeSolver m =>
          simp only [uWorkEffect, writeFailed, updRecords, if_pos rfl] at hr
          injection hr with hx
          rw [← hx] at hqd
          cases hqd
        | afterSolver m =>
          simp only [uWorkEffect, writeFailed, updRecords, if_pos rfl] at hr
          injection hr with hx
          rw [← hx] at hqd
          cases hqd
      · have hr2 : s.store.records id2 = some r := by
          simp only [applyUWork] at hr
          cases exn <;>
            simpa [uWorkEffect, writeFailed, writeCompleted, updRecords, hii] using hr
        rcases hRQ id2 r hr2 hqd with hm | hl
        · left
          simp only [applyUWork, uWorkEffect_queue]
          exact hm
        · right
          rcases hl with ⟨c2, hc2⟩ | hc2 | hm
          · exact Or.inl ⟨c2, by simpa [applyUWork] using hc2⟩
          · exact Or.inr (Or.inl (by simpa [applyUWork] using hc2))
          · right
            right
            rw [h] at hm
            simp only [applyUWork, List.mem_append, List.mem_cons] at hm ⊢
            rcases hm with hm | hm | hm
            · simp [hm]
            · exfalso
              have h2 : UPhase.pending = UPhase.running p := congrArg Prod.snd hm
              cases h2
            · simp [hm]
    · intro id2 hf
      simp only [applyUWork, uWorkEffect_queue]
      apply hFQ id2
      rcases hf with ⟨c2, hc2⟩ | hc2 | ⟨ph, hm⟩
      · exact Or.inl ⟨c2, by simpa [applyUWork] using hc2⟩
      · exact Or.inr (Or.inl (by simpa [applyUWork] using hc2))
      · simp only [applyUWork, List.mem_append, List.mem_cons] at hm
        rcases hm with hm | hm | hm
        · exact Or.inr (Or.inr ⟨ph, by rw [h]; simp [hm]⟩)
        · have h2 : id2 = id := congrArg Prod.fst hm
          rw [h2]
          exact hidf
        · exact Or.inr (Or.inr ⟨ph, by rw [h]; simp [hm]⟩)
  | uFin id u1 u2 h =>
    refine ⟨hQR, ?_, ?_⟩
    · intro id2 r hr hqd
      rcases hRQ id2 r hr hqd with hm | hl
      · exact Or.inl hm
      · right
        rcases hl with ⟨c2, hc2⟩ | hc2 | hm
        · exact Or.inl ⟨c2, hc2⟩
        · exact Or.inr (Or.inl hc2)
        · right
          right
          rw [h] at hm
          simp only [List.mem_append, List.mem_cons] at hm
          rcases hm with hm | hm | hm
          · simp [hm]
          · exfalso
            have h2 : UPhase.pending = UPhase.finishing := congrArg Prod.snd hm
            cases h2
          · simp [hm]
    · intro id2 hf
      apply hFQ id2
      rcases hf with ⟨c2, hc2⟩ | hc2 | ⟨ph, hm⟩
      · exact Or.inl ⟨c2, hc2⟩
      · exact Or.inr (Or.inl hc2)
      · rcases List.mem_append.mp hm with hm | hm
        · exact Or.inr (Or.inr ⟨ph, by rw [h]; simp [hm]⟩)
        · exact Or.inr (Or.inr ⟨ph, by rw [h]; simp [hm]⟩)
  | submit form id hfresh hv =>
    obtain ⟨f, hf, hne, hall⟩ := validForm_iff.mp hv
    rw [solveApp_valid s form id f hf hne hall]
    refine ⟨?_, ?_, ?_⟩
    · intro id2 hm
      rcases List.mem_append.mp hm with hm | hm
      · have hii : id2 ≠ id := by
          intro he
          exact hfresh (he ▸ hG.qUsed id2 hm)
        obtain ⟨r, hr, hrq⟩ := hQR id2 hm
        exact ⟨r, by simpa [hii] using hr, hrq⟩
      · have hii : id2 = id := List.mem_singleton.mp hm
        refine ⟨submitRecord form f id, by simp [hii], rfl⟩
    · intro id2 r hr hqd
      by_cases hii : id2 = id
      · left
        rw [hii]
        exact List.mem_append.mpr (Or.inr (List.mem_singleton.mpr rfl))
      · simp only [hii, if_false] at hr
        rcases hRQ id2 r hr hqd with hm | hl
        · exact Or.inl (List.mem_append.mpr (Or.inl hm))
        · right
          rcases hl with ⟨c2, hc2⟩ | hc2 | hm
          · exact Or.inl ⟨c2, hc2⟩
          · exact Or.inr (Or.inl hc2)
          · exact Or.inr (Or.inr hm)
    · intro id2 hf2
      have hfs : inFlight s id2 := by
        rcases hf2 with ⟨c2, hc2⟩ | hc2 | ⟨ph, hm⟩
        · exact Or.inl ⟨c2, hc2⟩
        · exact Or.inr (Or.inl hc2)
        · exact Or.inr (Or.inr ⟨ph, hm⟩)
      have hii : id2 ≠ id := by
        intro he
        exact hfresh (he ▸ hG.fUsed id2 hfs)
      intro hm
      rcases List.mem_append.mp hm with hm | hm
      · exact hFQ id2 hfs hm
      · exact hii (List.mem_singleton.mp hm)
  | cancelS id =>
    rcases cancel_job_cases s.store s.fs id with hcc | ⟨jr, hrec, hqd, hcc⟩
    · have hsto : (cancelSys s id).store = s.store := by
        rw [cancelSys_store, hcc]
      refine ⟨?_, ?_, ?_⟩ <;>
        simp only [hsto, cancelSys_loop, cancelSys_units]
      · exact hQR
      · intro id2 r hr hq2
        rcases hRQ id2 r hr hq2 with hm | hl
        · exact Or.inl hm
        · right
          rcases hl with ⟨c2, hc2⟩ | hc2 | hm
          · exact Or.inl ⟨c2, hc2⟩
          · exact Or.inr (Or.inl hc2)
          · exact Or.inr (Or.inr hm)
      · intro id2 hf2
        apply hFQ id2
        rcases hf2 with ⟨c2, hc2⟩ | hc2 | ⟨ph, hm⟩
        · exact Or.inl ⟨c2, hc2⟩
        · exact Or.inr (Or.inl hc2)
        · exact Or.inr (Or.inr ⟨ph, hm⟩)
    · have hsto : (cancelSys s id).store =
          updRecords { s.store with queue := lrem1 id s.store.queue } id
            (some { jr with status := Status.cancelled }) := by
        rw [cancelSys_store, hcc]
      refine ⟨?_, ?_, ?_⟩
      · intro id2 hm
        rw [hsto] at hm ⊢
        simp only [updRecords] at hm ⊢
        have hii : id2 ≠ id := by
          intro he
          rw [he] at hm
          exact not_mem_lrem1_of_nodup hG.nodup hm
        obtain ⟨r, hr, hrq⟩ := hQR id2 ((lrem1_sublist id s.store.queue).mem hm)
        refine ⟨r, ?_, hrq⟩
        simpa [hii] using hr
      · intro id2 r hr hq2
        rw [hsto] at hr ⊢
        simp only [updRecords] at hr ⊢
        by_cases hii : id2 = id
        · exfalso
          rw [hii] at hr
          simp only [if_pos rfl] at hr
          injection hr with hx
          rw [← hx] at hq2
          cases hq2
        · simp only [hii, if_false] at hr
          rcases hRQ id2 r hr hq2 with hm | hl
          · exact Or.inl ((mem_lrem1 hii).mpr hm)
          · right
            rcases hl with ⟨c2, hc2⟩ | hc2 | hm
            · exact Or.inl ⟨c2, hc2⟩
            · exact Or.inr (Or.inl hc2)
            · exact Or.inr (Or.inr hm)
      · intro id2 hf2
        rw [hsto]
        simp only [updRecords]
        have hfs : inFlight s id2 := by
          rcases hf2 with ⟨c2, hc2⟩ | hc2 | ⟨ph, hm⟩
          · exact Or.inl ⟨c2, hc2⟩
          · exact Or.inr (Or.inl hc2)
          · exact Or.inr (Or.inr ⟨ph, hm⟩)
        intro hm
        exact hFQ id2 hfs ((lrem1_sublist id s.store.queue).mem hm)

theorem reachNE_reach {C : Int} {s : Sys} (h : ReachNE C s) : Reach C s := by
  induction h with
  | refl => exact Relation.ReflTransGen.refl
  | tail h1 h2 ih => exact Relation.ReflTransGen.tail ih (Or.inl h2)

theorem invNE_reach {C : Int} {s : Sys} (h : ReachNE C s) : InvNE s := by
  induction h with
  | refl => exact invNE_init
  | tail h1 h2 ih =>
    exact invNE_step (invG_reach (reachNE_reach h1)) ih h2

/-! ### Claim C4: queue membership versus record status -/

/-- Claim C4 (amended): in every state reachable WITHOUT record expiry, a
job id is in the FIFO queue exactly when its record exists with status
`queued` AND the id is not inside the dispatch window (popped by the loop
but not yet marked processing by its unit).  As stated - over all
transitions including expiry, and as a plain status iff - the claim is
false: see the counterexample, where an expired record leaves its id
dangling in the queue. -/
theorem claim_C4_amended (C : Int) (s : Sys) (h : ReachNE C s) (id : String) :
    id ∈ s.store.queue ↔
      ((∃ r, s.store.records id = some r ∧ r.status = Status.queued)
        ∧ ¬ limboP s id) := by
  obtain ⟨hQR, hRQ, hFQ⟩ := invNE_reach h
  constructor
  · intro hm
    refine ⟨hQR id hm, ?_⟩
    intro hl
    exact hFQ id (limboP_inFlight hl) hm
  · rintro ⟨⟨r, hr, hq⟩, hnl⟩
    rcases hRQ id r hr hq with hm | hl
    · exact hm
    · exact absurd hl hnl

/-- The state after submitting one valid job. -/
def c4s1 : Sys := (solveApp Sys.init okForm "j1").1

/-- The state after that job record expires while still queued. -/
def c4s2 : Sys := delRecord c4s1 "j1"

/-- Counterexample to claim C4 as stated: after a submission followed by a
record expiry - both steps of the system - the reachable state has the id
in the queue with NO record at all, so "in the queue iff the record exists
with status queued" fails. -/
theorem claim_C4_counterexample :
    Reach 2 c4s2 ∧ "j1" ∈ c4s2.store.queue ∧ c4s2.store.records "j1" = none := by
  refine ⟨?_, by decide, by decide⟩
  have h1 : StepAll 2 Sys.init c4s1 :=
    Or.inl (StepCore.submit Sys.init okForm "j1" (by simp [Sys.init]) (by decide))
  have hrec : c4s1.store.records "j1" =
      some (submitRecord okForm { filename := "a.fits", content := [] } "j1") := by
    decide
  have h2 : StepAll 2 c4s1 c4s2 :=
    Or.inr (ExpireStep.mk c4s1 "j1" _ hrec (by decide))
  exact Relation.ReflTransGen.tail
    (Relation.ReflTransGen.tail Relation.ReflTransGen.refl h1) h2

/-- Witness for the amended C4 at the initial state. -/
theorem claim_C4_witness :
    ("j1" ∈ Sys.init.store.queue) ↔
      ((∃ r, Sys.init.store.records "j1" = some r ∧ r.status = Status.queued)
        ∧ ¬ limboP Sys.init "j1") :=
  claim_C4_amended 2 Sys.init Relation.ReflTransGen.refl "j1"

/-! ### Claim C6: cancellation -/

/-- Claim C6: cancellation answers `NotFound` when the record is absent,
`InvalidState` when the status is not `queued`; otherwise it removes the id
from the queue (tolerating an id already gone), marks the record
`cancelled`, and deletes the input artifact; and a cancelled job is never
subsequently dispatched: in every reachable state the id of a
cancelled record is not in the queue, and the loop only ever acquires an id by popping it
from the queue. -/
theorem claim_C6 (st : Store) (fs : FS) (id : String) :
    (st.records id = none → cancel_job st fs id = (st, fs, CancelResp.notFound))
    ∧ (∀ jr, st.records id = some jr → jr.status ≠ Status.queued →
        cancel_job st fs id = (st, fs, CancelResp.invalidState))
    ∧ (∀ jr, st.records id = some jr → jr.status = Status.queued →
        (cancel_job st fs id).2.2 = CancelResp.ok
        ∧ (cancel_job st fs id).1.queue = lrem1 id st.queue
        ∧ (id ∉ st.queue → (cancel_job st fs id).1.queue = st.queue)
        ∧ (st.queue.Nodup → id ∉ (cancel_job st fs id).1.queue)
        ∧ (cancel_job st fs id).1.records id = some { jr with status := Status.cancelled }
        ∧ (jr.imagePath ≠ "" → fsRead (cancel_job st fs id).2.1 jr.imagePath = none))
    ∧ (∀ (C : Int) (s : Sys), Reach C s → ∀ id2 r, s.store.records id2 = some r →
        r.status = Status.cancelled → id2 ∉ s.store.queue)
    ∧ (∀ (C : Int) (s t : Sys) (c : Int) (id2 : String), StepAll C s t →
        t.loop = LoopPC.havePopped c id2 →
        s.loop = LoopPC.havePopped c id2 ∨ id2 ∈ s.store.queue) := by
  refine ⟨?_, ?_, ?_, ?_, ?_⟩
  · intro h
    simp [cancel_job, h]
  · intro jr h hs
    simp [cancel_job, h, hs]
  · intro jr h hs
    have hq : (cancel_job st fs id).1.queue = lrem1 id st.queue := by
      simp [cancel_job, h, hs, updRecords]
    refine ⟨by simp [cancel_job, h, hs], hq, ?_, ?_, ?_, ?_⟩
    · intro hnm
      rw [hq]
      exact lrem1_not_mem hnm
    · intro hnd
      rw [hq]
      exact not_mem_lrem1_of_nodup hnd
    · simp [cancel_job, h, hs, updRecords]
    · intro him
      have hfs1 : (cancel_job st fs id).2.1 =
          (if jr.imagePath ≠ "" ∧ fsHas fs jr.imagePath then fsRemove fs jr.imagePath
           else fs) := by
        simp [cancel_job, h, hs]
      rw [hfs1]
      by_cases hcnd : jr.imagePath ≠ "" ∧ fsHas fs jr.imagePath
      · rw [if_pos hcnd]
        exact fsRead_remove fs jr.imagePath
      · rw [if_neg hcnd]
        rcases not_and_or.mp hcnd with hcc | hcc
        · exact absurd him hcc
        · unfold fsHas at hcc
          cases hr : fsRead fs jr.imagePath with
          | none => rfl
          | some v =>
            rw [hr] at hcc
            simp at hcc
  · intro C s hreach id2 r hr hc
    exact (invG_reach hreach).cNotQ id2 r hr hc
  · intro C s t c id2 hst hp
    rcases hst with hcore | hexp
    · cases hcore with
      | readCtr h => cases hp
      | loopFull c3 h hc => cases hp
      | popMiss c3 h hc hq => cases hp
      | popOk c3 id3 rest h hc hq =>
        right
        injection hp with h1 h2
        rw [hq, ← h2]
        exact List.mem_cons_self id3 rest
      | incrCtr c3 id3 h => cases hp
      | spawn id3 h => cases hp
      | uRead id3 u1 u2 h =>
        left
        unfold applyURead at hp
        revert hp
        cases s.store.records id3 <;> exact fun hp => hp
      | uWork id3 p u1 u2 writes outcome exn h =>
        left
        exact hp
      | uFin id3 u1 u2 h =>
        left
        exact hp
      | submit form id3 hfresh hv =>
        obtain ⟨f, hf, hne, hall⟩ := validForm_iff.mp hv
        left
        rw [solveApp_valid s form id3 f hf hne hall] at hp
        exact hp
      | cancelS id3 =>
        left
        exact hp
    · cases hexp with
      | mk id3 r h1 h2 =>
        left
        exact hp

/-- The record and store of the C6 witness. -/
def c6Store : Store :=
  { records := fun j => if j = "j1" then some c2Rec else none,
    queue := ["j1"], activeJobs := 0, procSet := [] }

/-- Witness for C6: cancelling a concrete queued job succeeds, takes it out
of the queue, marks it cancelled, and deletes its artifact. -/
theorem claim_C6_witness :
    (cancel_job c6Store [("/tmp/astap-jobs/j1_a.fits", [])] "j1").2.2 = CancelResp.ok
    ∧ "j1" ∉ (cancel_job c6Store [("/tmp/astap-jobs/j1_a.fits", [])] "j1").1.queue
    ∧ fsRead (cancel_job c6Store [("/tmp/astap-jobs/j1_a.fits", [])] "j1").2.1
        "/tmp/astap-jobs/j1_a.fits" = none := by
  obtain ⟨_, _, h3, _, _⟩ := claim_C6 c6Store [("/tmp/astap-jobs/j1_a.fits", [])] "j1"
  obtain ⟨hok, _, _, hnq, _, hart⟩ := h3 c2Rec (by simp [c6Store]) rfl
  exact ⟨hok, hnq (by decide), hart (by decide)⟩

end RatEval
